import Mathlib

/-!
# CX2388x SDR capture driver: ring reader, band selection, RISC program

A shallow embedding of `cx88_sdr_v4l2.c` and `cx88_sdr_core.c`.  Machine words
are natural numbers, reduced modulo `2 ^ 32` or `2 ^ 64` where the C code can
wrap; a signed 64-bit variable is the word that holds it, read through `to_s64`.
Hardware registers that the driver only reads are inputs of the functions that
read them; the writes to registers are logged in the device record.
-/

namespace CX88SDR

/-! ## Constants of `cx88_sdr.h` and of the kernel headers it relies on -/

/-- Modelled from the spec: the kernel macro `PAGE_SHIFT` is not part of the
repository; the spec fixes 4 KiB pages, which is a shift of 12. -/
def PAGE_SHIFT : Nat := 12

/-- Page size in bytes, `1 << PAGE_SHIFT`. -/
def PAGE_SIZE : Nat := 1 <<< PAGE_SHIFT

/-- The constant `SZ_2K` of `linux/sizes.h`. -/
def SZ_2K : Nat := 0x00000800

/-- The constant `SZ_64M` of `linux/sizes.h`. -/
def SZ_64M : Nat := 0x04000000

def CLUSTER_BUF_NUM : Nat := 8

def CLUSTER_BUF_SIZE : Nat := SZ_2K

def VBI_DMA_SIZE : Nat := SZ_64M

def VBI_DMA_PAGES : Nat := VBI_DMA_SIZE >>> PAGE_SHIFT

def VBI_DMA_BUF_NUM : Nat := VBI_DMA_SIZE / CLUSTER_BUF_SIZE

def RISC_WRITE : Nat := 0x10000000

def RISC_JUMP : Nat := 0x70000000

def RISC_SYNC : Nat := 0x80000000

/-- Width of a `uint32_t`. -/
def U32 : Nat := 2 ^ 32

/-- Width of the 64-bit types `loff_t`, `ssize_t` and `unsigned long`. -/
def U64 : Nat := 2 ^ 64

/-- The constant `LLONG_MAX` of `linux/limits.h`, the largest `loff_t`. -/
def LLONG_MAX : Nat := 2 ^ 63 - 1

/-- The value of a 64-bit word read as a signed integer (`loff_t`, `ssize_t`). -/
def to_s64 (x : Nat) : Int :=
  if x % U64 ≤ LLONG_MAX then ((x % U64 : Nat) : Int) else ((x % U64 : Nat) : Int) - (U64 : Int)

/-- Errno values of `errno-base.h`, returned negated. -/
def EAGAIN : Int := 11

def ENOMEM : Int := 12

def EFAULT : Int := 14

def EINVAL : Int := 22

/-! ## `cx88sdr_read` -/

/-- The page pool `dev->dma_buf_pages`: page index, then byte offset. -/
abbrev Pool := Nat → Nat → Nat

/-- The locals of `cx88sdr_read` together with the memory it touches.  `pos` and
`result` are the 64-bit words that hold `*pos` (a `loff_t`) and `result` (an
`ssize_t`); `page` is a `uint32_t`.  `buf` is the distance the destination
pointer has advanced; `user` lists the bytes stored to the consumer, in address
order. -/
structure ReadVars where
  pos : Nat
  size : Nat
  result : Nat
  buf : Nat
  page : Nat
  pool : Pool
  user : List Nat

/-- What a finished call leaves behind: return value, the word holding `*pos`,
pool, consumer bytes. -/
structure ReadOut where
  ret : Int
  pos : Nat
  pool : Pool
  user : List Nat

/-- How the `while` loop of `cx88sdr_read` is left. -/
inductive LoopExit where
  | done (v : ReadVars)
  | fault (v : ReadVars)

/-- The expression `(dev->start_page + ((*pos % VBI_DMA_SIZE) >> PAGE_SHIFT)) % VBI_DMA_PAGES`
as assigned to the `uint32_t page`.  `*pos` is a signed `long long` and the two
constants are of type `int`, so both remainders take the sign of the dividend
and the shift is arithmetic; the sum is formed in 64 bits and does not wrap; the
assignment reduces the result to 32 bits.  The result is below `VBI_DMA_PAGES`
when `*pos` is not negative. -/
def cur_page (start_page pos : Nat) : Nat :=
  Int.toNat
    ((Int.tmod ((start_page : Int) + ((Int.tmod (to_s64 pos) (VBI_DMA_SIZE : Int)) >>> PAGE_SHIFT))
      (VBI_DMA_PAGES : Int)) % (U32 : Int))

/-- The producer page: `(!page_cnt) ? (VBI_DMA_PAGES - 1) : (page_cnt - 1)`. -/
def producer_page (page_cnt : Nat) : Nat :=
  if page_cnt = 0 then VBI_DMA_PAGES - 1 else page_cnt - 1

/-- Length of the next chunk ("Handle partial pages").  `PAGE_SIZE` is an
`unsigned long`, so `*pos % PAGE_SIZE` is the remainder of the 64-bit word. -/
def chunk_len (pos size : Nat) : Nat :=
  let len := if pos % PAGE_SIZE ≠ 0 then PAGE_SIZE - pos % PAGE_SIZE else PAGE_SIZE
  if len > size then size else len

/-- The bytes `pool[page][off .. off + len)`. -/
def page_slice (pool : Pool) (page off len : Nat) : List Nat :=
  (List.range len).map (fun j => pool page (off + j))

/-- The call `memset(dev->dma_buf_pages[page] + off, 0, len)`. -/
def memset_zero (pool : Pool) (page off len : Nat) : Pool :=
  fun p j => if p = page ∧ off ≤ j ∧ j < off + len then 0 else pool p j

/-- One pass through the body of the `while` loop when `copy_to_user` succeeds:
the chunk is appended to the consumer bytes, zeroed in the pool, and the
counters and `page` are advanced.  The additions to `*pos` and to `result` wrap
at 64 bits. -/
def read_step (start_page : Nat) (v : ReadVars) : ReadVars :=
  let len := chunk_len v.pos v.size
  let off := v.pos % PAGE_SIZE
  { pos := (v.pos + len) % U64
    size := v.size - len
    result := (v.result + len) % U64
    buf := v.buf + len
    page := cur_page start_page ((v.pos + len) % U64)
    pool := memset_zero v.pool v.page off len
    user := v.user ++ page_slice v.pool v.page off len }

/-- The loop `while (size && page != page_cnt)`.  `copy_to_user buf len` is the
number of bytes that could not be copied, as in the kernel; when it is not zero
the loop is left at once, with the copied part of the chunk stored.  Every
iteration consumes at least one byte of `size`, so `size` iterations always
suffice; `none` means the iteration bound was too small. -/
def read_while (start_page page_cnt : Nat) (copy_to_user : Nat → Nat → Nat) :
    Nat → ReadVars → Option LoopExit
  | 0, v => if v.size ≠ 0 ∧ v.page ≠ page_cnt then none else some (LoopExit.done v)
  | fuel + 1, v =>
    if v.size ≠ 0 ∧ v.page ≠ page_cnt then
      let len := chunk_len v.pos v.size
      let left := copy_to_user v.buf len
      if left ≠ 0 then
        some (LoopExit.fault
          { v with user := v.user ++ page_slice v.pool v.page (v.pos % PAGE_SIZE) (len - left) })
      else
        read_while start_page page_cnt copy_to_user fuel (read_step start_page v)
    else some (LoopExit.done v)

/-- The body of `cx88sdr_read` from the label `retry` on.  `gpcnt n` is the
value returned by the `n`-th read of `MO_VBI_GPCNT` during the call; the first
argument bounds the number of passes through `retry`. -/
def read_retry (nonblock : Bool) (start_page : Nat) (copy_to_user : Nat → Nat → Nat)
    (gpcnt : Nat → Nat) : Nat → Nat → ReadVars → Option ReadOut
  | 0, _, _ => none
  | fuel + 1, n, v =>
    let page_cnt := producer_page (gpcnt n)
    if v.page = page_cnt ∧ nonblock = true then
      some { ret := -EAGAIN, pos := v.pos, pool := v.pool, user := v.user }
    else
      match read_while start_page page_cnt copy_to_user v.size v with
      | none => none
      | some (LoopExit.fault w) =>
        some { ret := -EFAULT, pos := w.pos, pool := w.pool, user := w.user }
      | some (LoopExit.done w) =>
        if w.size ≠ 0 ∧ nonblock = false then
          read_retry nonblock start_page copy_to_user gpcnt fuel (n + 1) w
        else
          some { ret := to_s64 w.result, pos := w.pos, pool := w.pool, user := w.user }

/-- The locals of `cx88sdr_read` when the label `retry` is first reached:
`result = 0`, `buf` not yet advanced, `page` computed from `*pos`. -/
def read_init (start_page : Nat) (pool : Pool) (size pos : Nat) : ReadVars :=
  { pos := pos, size := size, result := 0, buf := 0,
    page := cur_page start_page pos, pool := pool, user := [] }

/-- The function `cx88sdr_read`: `nonblock` is `file->f_flags & O_NONBLOCK`,
`start_page` is `dev->start_page`, `pool` the page pool, `size` and `pos` the
request. -/
def cx88sdr_read (fuel : Nat) (nonblock : Bool) (start_page : Nat)
    (copy_to_user : Nat → Nat → Nat) (gpcnt : Nat → Nat) (pool : Pool)
    (size pos : Nat) : Option ReadOut :=
  read_retry nonblock start_page copy_to_user gpcnt fuel 0
    (read_init start_page pool size pos)

/-- The states in which a call of `cx88sdr_read` stands at the label `retry`:
`AtRetry ... v0 n v` says that a call started with the locals `v0` reaches
`retry` for the `n`-th time after the first with the locals `v`.  It does so
again when the pass does not return `-EAGAIN`, the loop ends without fault, and
`size` is not zero in a blocking read (`goto retry`). -/
inductive AtRetry (nonblock : Bool) (start_page : Nat) (copy_to_user : Nat → Nat → Nat)
    (gpcnt : Nat → Nat) (v0 : ReadVars) : Nat → ReadVars → Prop
  | first : AtRetry nonblock start_page copy_to_user gpcnt v0 0 v0
  | again (n : Nat) (v w : ReadVars) :
      AtRetry nonblock start_page copy_to_user gpcnt v0 n v →
      ¬ (v.page = producer_page (gpcnt n) ∧ nonblock = true) →
      read_while start_page (producer_page (gpcnt n)) copy_to_user v.size v
        = some (LoopExit.done w) →
      w.size ≠ 0 ∧ nonblock = false →
      AtRetry nonblock start_page copy_to_user gpcnt v0 (n + 1) w

/-! ## Device record -/

def MO_DEV_CNTRL2 : Nat := 0x200034

def MO_PCI_INTMSK : Nat := 0x200040

def MO_VID_INTSTAT : Nat := 0x200054

def MO_VID_DMACNTRL : Nat := 0x31c040

def MO_CONTR_BRIGHT : Nat := 0x310110

def MO_OUTPUT_FORMAT : Nat := 0x310164

def MO_PLL_REG : Nat := 0x310168

def MO_SCONV_REG : Nat := 0x310170

def MO_CAPTURE_CTRL : Nat := 0x310180

def MO_COLOR_CTRL : Nat := 0x310184

def MO_VBI_PACKET : Nat := 0x310188

def MO_AFECFG_IO : Nat := 0x35c04c

/-- The pixel format `V4L2_SDR_FMT_RU8`, i.e. `v4l2_fourcc('C', 'U', '0', '8')`. -/
def V4L2_SDR_FMT_RU8 : Nat := 0x38305543

/-- The pixel format `V4L2_SDR_FMT_RU16LE`, i.e. `v4l2_fourcc('C', 'U', '1', '6')`. -/
def V4L2_SDR_FMT_RU16LE : Nat := 0x36315543

/-- The tuner type `V4L2_TUNER_SDR` of `videodev2.h`. -/
def V4L2_TUNER_SDR : Nat := 4

def V4L2_TUNER_CAP_1HZ : Nat := 0x1000

def V4L2_TUNER_CAP_FREQ_BANDS : Nat := 0x0400

def CX88SDR_INPUT_01 : Nat := 1

def CX88SDR_BAND_00 : Nat := 0

def CX88SDR_BAND_01 : Nat := 1

def CX88SDR_BAND_02 : Nat := 2

def CX88SDR_XTAL_FREQ : Nat := 28636363

/-- The fields of `struct cx88sdr_dev` that the modelled functions use.
`mmio` is the sequence of `ctrl_iowrite32` calls so far, as (register, value)
pairs, oldest first; `fh_list` counts the file handles added by `v4l2_fh_add`
and not yet removed by `v4l2_fh_del`. -/
structure Dev where
  start_page : Nat
  gain : Nat
  input : Nat
  sdr_band : Nat
  pixelformat : Nat
  buffersize : Nat
  fh_list : Nat
  mmio : List (Nat × Nat)
  deriving DecidableEq, Repr

/-- The helper `ctrl_iowrite32`. -/
def ctrl_iowrite32 (dev : Dev) (reg val : Nat) : Dev :=
  { dev with mmio := dev.mmio ++ [(reg, val)] }

/-! ## `cx88sdr_open` and `cx88sdr_release` -/

/-- The value of `x - 1` on `uint32_t`: one less, and `0xffffffff` when `x` is 0. -/
def u32_dec (x : Nat) : Nat :=
  if x % U32 = 0 then U32 - 1 else x % U32 - 1

/-- The function `cx88sdr_open`: `kzalloc_ok` tells whether the allocation of the
file handle succeeds, `gpcnt` is the value read from `MO_VBI_GPCNT`.  The
subtraction is done on `uint32_t`. -/
def cx88sdr_open (kzalloc_ok : Bool) (gpcnt : Nat) (dev : Dev) : Int × Dev :=
  if kzalloc_ok = false then (-ENOMEM, dev)
  else
    let dev := { dev with fh_list := dev.fh_list + 1 }
    let dev := { dev with start_page := u32_dec gpcnt }
    (0, ctrl_iowrite32 dev MO_PCI_INTMSK 1)

/-- The function `cx88sdr_release`. -/
def cx88sdr_release (dev : Dev) : Int × Dev :=
  let dev := ctrl_iowrite32 dev MO_PCI_INTMSK 0
  (0, { dev with fh_list := dev.fh_list - 1 })

/-! ## Capture controller -/

/-- The fields of `struct v4l2_frequency_band` set by the driver's tables. -/
structure FrequencyBand where
  tuner : Nat
  type : Nat
  index : Nat
  capability : Nat
  rangelow : Nat
  rangehigh : Nat
  deriving DecidableEq, Repr

def cx88sdr_bands_ru08 : List FrequencyBand :=
  [ { tuner := 0, type := V4L2_TUNER_SDR, index := 0,
      capability := V4L2_TUNER_CAP_1HZ ||| V4L2_TUNER_CAP_FREQ_BANDS,
      rangelow := CX88SDR_XTAL_FREQ / 2, rangehigh := CX88SDR_XTAL_FREQ / 2 },
    { tuner := 0, type := V4L2_TUNER_SDR, index := 1,
      capability := V4L2_TUNER_CAP_1HZ ||| V4L2_TUNER_CAP_FREQ_BANDS,
      rangelow := CX88SDR_XTAL_FREQ, rangehigh := CX88SDR_XTAL_FREQ },
    { tuner := 0, type := V4L2_TUNER_SDR, index := 2,
      capability := V4L2_TUNER_CAP_1HZ ||| V4L2_TUNER_CAP_FREQ_BANDS,
      rangelow := CX88SDR_XTAL_FREQ * 5 / 4, rangehigh := CX88SDR_XTAL_FREQ * 5 / 4 } ]

def cx88sdr_bands_ru16 : List FrequencyBand :=
  [ { tuner := 0, type := V4L2_TUNER_SDR, index := 0,
      capability := V4L2_TUNER_CAP_1HZ ||| V4L2_TUNER_CAP_FREQ_BANDS,
      rangelow := CX88SDR_XTAL_FREQ / 4, rangehigh := CX88SDR_XTAL_FREQ / 4 },
    { tuner := 0, type := V4L2_TUNER_SDR, index := 1,
      capability := V4L2_TUNER_CAP_1HZ ||| V4L2_TUNER_CAP_FREQ_BANDS,
      rangelow := CX88SDR_XTAL_FREQ / 2, rangehigh := CX88SDR_XTAL_FREQ / 2 },
    { tuner := 0, type := V4L2_TUNER_SDR, index := 2,
      capability := V4L2_TUNER_CAP_1HZ ||| V4L2_TUNER_CAP_FREQ_BANDS,
      rangelow := CX88SDR_XTAL_FREQ * 5 / 8, rangehigh := CX88SDR_XTAL_FREQ * 5 / 8 } ]

/-- The field `.rangelow` of a table entry at a constant index. -/
def rangelow_at (tbl : List FrequencyBand) (i : Nat) : Nat :=
  match tbl[i]? with
  | some b => b.rangelow
  | none => 0

/-- The field `.rangehigh` of a table entry at a constant index. -/
def rangehigh_at (tbl : List FrequencyBand) (i : Nat) : Nat :=
  match tbl[i]? with
  | some b => b.rangehigh
  | none => 0

/-- The second `switch` of `cx88sdr_adc_fmt_set`, on `dev->sdr_band`. -/
def adc_band_set (dev : Dev) : Int × Dev :=
  if dev.sdr_band = CX88SDR_BAND_00 then
    let dev := ctrl_iowrite32 dev MO_SCONV_REG ((1 <<< 17) * 2)
    (0, ctrl_iowrite32 dev MO_PLL_REG ((1 <<< 26) ||| (0x14 <<< 20)))
  else if dev.sdr_band = CX88SDR_BAND_01 then
    let dev := ctrl_iowrite32 dev MO_SCONV_REG (1 <<< 17)
    (0, ctrl_iowrite32 dev MO_PLL_REG (0x10 <<< 20))
  else if dev.sdr_band = CX88SDR_BAND_02 then
    let dev := ctrl_iowrite32 dev MO_SCONV_REG ((1 <<< 17) * 4 / 5)
    (0, ctrl_iowrite32 dev MO_PLL_REG (0x14 <<< 20))
  else (-EINVAL, dev)

/-- The function `cx88sdr_adc_fmt_set`: first the `switch` on
`dev->pixelformat`, then the one on `dev->sdr_band`. -/
def cx88sdr_adc_fmt_set (dev : Dev) : Int × Dev :=
  if dev.pixelformat = V4L2_SDR_FMT_RU8 then
    adc_band_set (ctrl_iowrite32 dev MO_CAPTURE_CTRL ((1 <<< 6) ||| (3 <<< 1)))
  else if dev.pixelformat = V4L2_SDR_FMT_RU16LE then
    adc_band_set (ctrl_iowrite32 dev MO_CAPTURE_CTRL ((1 <<< 6) ||| (1 <<< 5) ||| (3 <<< 1)))
  else (-EINVAL, dev)

/-- The three-way `if` chain that `cx88sdr_s_frequency` runs for one format,
over that format's band table. -/
def select_band (tbl : List FrequencyBand) (frequency : Nat) (dev : Dev) : Dev :=
  if dev.sdr_band ≠ CX88SDR_BAND_00 ∧ frequency < rangelow_at tbl CX88SDR_BAND_01 then
    { dev with sdr_band := CX88SDR_BAND_00 }
  else if dev.sdr_band ≠ CX88SDR_BAND_01 ∧ frequency > rangehigh_at tbl CX88SDR_BAND_00 ∧
      frequency < rangelow_at tbl CX88SDR_BAND_02 then
    { dev with sdr_band := CX88SDR_BAND_01 }
  else if dev.sdr_band ≠ CX88SDR_BAND_02 ∧ frequency > rangehigh_at tbl CX88SDR_BAND_01 then
    { dev with sdr_band := CX88SDR_BAND_02 }
  else dev

/-- The function `cx88sdr_s_frequency`, on the fields `tuner`, `type` and
`frequency` of its `struct v4l2_frequency` argument. -/
def cx88sdr_s_frequency (tuner type frequency : Nat) (dev : Dev) : Int × Dev :=
  if tuner > 0 ∨ type ≠ V4L2_TUNER_SDR then (-EINVAL, dev)
  else if dev.pixelformat = V4L2_SDR_FMT_RU8 then
    cx88sdr_adc_fmt_set (select_band cx88sdr_bands_ru08 frequency dev)
  else if dev.pixelformat = V4L2_SDR_FMT_RU16LE then
    cx88sdr_adc_fmt_set (select_band cx88sdr_bands_ru16 frequency dev)
  else (-EINVAL, dev)

/-- The function `cx88sdr_g_frequency`: the return value and the field
`f->frequency` after the call (`frequency` before it).  `none` stands for a
table access outside the table, which C leaves undefined. -/
def cx88sdr_g_frequency (tuner frequency : Nat) (dev : Dev) : Option (Int × Nat) :=
  if tuner > 0 then some (-EINVAL, frequency)
  else if dev.pixelformat = V4L2_SDR_FMT_RU8 then
    (cx88sdr_bands_ru08[dev.sdr_band]?).map (fun b => (0, b.rangelow))
  else if dev.pixelformat = V4L2_SDR_FMT_RU16LE then
    (cx88sdr_bands_ru16[dev.sdr_band]?).map (fun b => (0, b.rangelow))
  else some (-EINVAL, frequency)

/-- The fields `f->fmt.sdr.pixelformat` and `f->fmt.sdr.buffersize` of a
`struct v4l2_format`. -/
structure SdrFormat where
  pixelformat : Nat
  buffersize : Nat
  deriving DecidableEq, Repr

/-- The `switch (f->fmt.sdr.pixelformat)` of `cx88sdr_s_fmt_sdr`: the device and
the request after it. -/
def s_fmt_switch (f : SdrFormat) (dev : Dev) : Dev × SdrFormat :=
  if f.pixelformat = V4L2_SDR_FMT_RU8 then
    ({ dev with pixelformat := V4L2_SDR_FMT_RU8 }, { f with buffersize := dev.buffersize })
  else if f.pixelformat = V4L2_SDR_FMT_RU16LE then
    ({ dev with pixelformat := V4L2_SDR_FMT_RU16LE }, { f with buffersize := dev.buffersize })
  else
    ({ dev with pixelformat := V4L2_SDR_FMT_RU8 },
     { pixelformat := V4L2_SDR_FMT_RU8, buffersize := dev.buffersize })

/-- The function `cx88sdr_s_fmt_sdr`: return value, device and request after the
call.  The call ends with `return cx88sdr_adc_fmt_set(dev)`. -/
def cx88sdr_s_fmt_sdr (f : SdrFormat) (dev : Dev) : Int × Dev × SdrFormat :=
  let r := s_fmt_switch f dev
  let a := cx88sdr_adc_fmt_set r.1
  (a.1, a.2, r.2)

/-- The function `cx88sdr_adc_setup`; `intstat` is the value read from `MO_VID_INTSTAT`. -/
def cx88sdr_adc_setup (intstat : Nat) (dev : Dev) : Dev :=
  let dev := ctrl_iowrite32 dev MO_VID_INTSTAT intstat
  let dev := ctrl_iowrite32 dev MO_OUTPUT_FORMAT 0xf
  let dev := ctrl_iowrite32 dev MO_CONTR_BRIGHT 0xff00
  let dev := ctrl_iowrite32 dev MO_COLOR_CTRL ((0xe <<< 4) ||| 0xe)
  let dev := ctrl_iowrite32 dev MO_VBI_PACKET (((CLUSTER_BUF_SIZE <<< 17) ||| (2 <<< 11)) % U32)
  let dev := ctrl_iowrite32 dev MO_AFECFG_IO 0x12
  let dev := ctrl_iowrite32 dev MO_DEV_CNTRL2 (1 <<< 5)
  ctrl_iowrite32 dev MO_VID_DMACNTRL ((1 <<< 7) ||| (1 <<< 3))

/-- The part of `cx88sdr_probe` under "Set initial values", up to and including
the call of `cx88sdr_adc_fmt_set`. -/
def cx88sdr_probe_init (intstat : Nat) (dev : Dev) : Int × Dev :=
  let dev := { dev with gain := 0 }
  let dev := { dev with input := CX88SDR_INPUT_01 }
  let dev := { dev with sdr_band := CX88SDR_BAND_01 }
  let dev := { dev with pixelformat := V4L2_SDR_FMT_RU8 }
  let dev := { dev with buffersize := 1 }
  let dev := cx88sdr_adc_setup intstat dev
  cx88sdr_adc_fmt_set dev

/-- The device states a probed device can be in: the state left by a successful
`cx88sdr_probe`, closed under the calls that change the format or the band. -/
inductive Reachable : Dev → Prop where
  | probe (intstat : Nat) (d0 : Dev) :
      Reachable (cx88sdr_probe_init intstat d0).2
  | s_frequency (tuner type frequency : Nat) (dev : Dev) (h : Reachable dev) :
      Reachable (cx88sdr_s_frequency tuner type frequency dev).2
  | s_fmt (f : SdrFormat) (dev : Dev) (h : Reachable dev) :
      Reachable (cx88sdr_s_fmt_sdr f dev).2.1
  | open_ (ok : Bool) (gpcnt : Nat) (dev : Dev) (h : Reachable dev) :
      Reachable (cx88sdr_open ok gpcnt dev).2
  | release (dev : Dev) (h : Reachable dev) :
      Reachable (cx88sdr_release dev).2

/-! ## RISC instruction program -/

/-- The value `dev->risc_inst_buff_size` set by `cx88sdr_alloc_risc_inst_buffer`. -/
def risc_inst_buff_size : Nat :=
  (VBI_DMA_BUF_NUM * CLUSTER_BUF_NUM + PAGE_SIZE) % U32

/-- The first write instruction of a page. -/
def risc_write_lo : Nat :=
  RISC_WRITE ||| CLUSTER_BUF_SIZE ||| (3 <<< 26)

/-- The second write instruction of page `i`, given the value of `irqt`. -/
def risc_write_hi (i irqt : Nat) : Nat :=
  RISC_WRITE ||| CLUSTER_BUF_SIZE ||| (3 <<< 26) |||
    ((if irqt = 0 then 1 else 0) <<< 24) |||
    ((if i < VBI_DMA_PAGES - 1 then 1 else 3) <<< 16)

/-- The `for` loop of `cx88sdr_make_risc_instructions`, started at page `i`
with the given `irqt` and run for the given number of pages: the words stored
through `pp`, in order.  `pgvec_phy` is the table of page bus addresses. -/
def risc_loop (pgvec_phy : Nat → Nat) : Nat → Nat → Nat → List Nat
  | 0, _, _ => []
  | n + 1, i, irqt =>
    let irqt := (irqt + 1) &&& 0x1ff
    let dma_addr := pgvec_phy i % U32
    [risc_write_lo, dma_addr, risc_write_hi i irqt, (dma_addr + CLUSTER_BUF_SIZE) % U32] ++
      risc_loop pgvec_phy n (i + 1) irqt

/-- The function `cx88sdr_make_risc_instructions`: the 32-bit words written to
`dev->risc_inst_virt`, given `dev->risc_inst_phy` and `dev->pgvec_phy`. -/
def cx88sdr_make_risc_instructions (risc_inst_phy : Nat) (pgvec_phy : Nat → Nat) : List Nat :=
  let loop_addr := (risc_inst_phy + 4) % U32
  [RISC_SYNC ||| (3 <<< 16)] ++ risc_loop pgvec_phy VBI_DMA_PAGES 0 0 ++ [RISC_JUMP, loop_addr]

/-! ## SRAM setup -/

def CX_SRAM_BASE : Nat := 0x180000

def CHN24_CMDS_BASE : Nat := 0x180100

def RISC_INST_QUEUE : Nat := CX_SRAM_BASE + 0x0800

def CDT_BASE : Nat := CX_SRAM_BASE + 0x1000

def CLUSTER_BUF_BASE : Nat := CX_SRAM_BASE + 0x4000

def MO_DMA24_PTR2 : Nat := 0x3000cc

def MO_DMA24_CNT1 : Nat := 0x30010c

def MO_DMA24_CNT2 : Nat := 0x30014c

/-- The loop "Write CDT" of `cx88sdr_sram_setup`, with the given number of
passes left, at index `i` and with the current value of `buff`. -/
def cdt_loop (buffsize cdt : Nat) : Nat → Nat → Nat → Dev → Dev
  | 0, _, _, dev => dev
  | n + 1, i, buff, dev =>
    cdt_loop buffsize cdt n (i + 1) ((buff + buffsize) % U32)
      (ctrl_iowrite32 dev ((cdt + 16 * i) % U32) buff)

/-- The function `cx88sdr_sram_setup`; `risc_inst_phy` is `dev->risc_inst_phy`. -/
def cx88sdr_sram_setup (risc_inst_phy : Nat) (dev : Dev)
    (numbuf buffsize buff cdt : Nat) : Dev :=
  let dev := cdt_loop buffsize cdt numbuf 0 buff dev
  let dev := ctrl_iowrite32 dev (CHN24_CMDS_BASE + 0) (risc_inst_phy % U32)
  let dev := ctrl_iowrite32 dev (CHN24_CMDS_BASE + 4) cdt
  let dev := ctrl_iowrite32 dev (CHN24_CMDS_BASE + 8) (numbuf * 2 % U32)
  let dev := ctrl_iowrite32 dev (CHN24_CMDS_BASE + 12) RISC_INST_QUEUE
  let dev := ctrl_iowrite32 dev (CHN24_CMDS_BASE + 16) 0x40
  let dev := ctrl_iowrite32 dev MO_DMA24_PTR2 cdt
  let dev := ctrl_iowrite32 dev MO_DMA24_CNT1 (u32_dec (buffsize >>> 3))
  ctrl_iowrite32 dev MO_DMA24_CNT2 (numbuf * 2 % U32)

/-- The call of `cx88sdr_sram_setup` in `cx88sdr_probe`.  The macro
`CLUSTER_BUFFER_BASE` used there is not defined in the repository (the header
has `CLUSTER_BUF_BASE`), so its value is an argument. -/
def cx88sdr_probe_sram (risc_inst_phy cluster_buffer_base : Nat) (dev : Dev) : Dev :=
  cx88sdr_sram_setup risc_inst_phy dev CLUSTER_BUF_NUM CLUSTER_BUF_SIZE cluster_buffer_base
    CDT_BASE

/-! ## Predicates and sample inputs used in the statements -/

/-- The bytes a reader at `pos` can take before the current page reaches the
producer page `P`: whole pages up to `P`, less the part of the current page
already consumed. -/
def avail (start_page P pos : Nat) : Nat :=
  ((P + VBI_DMA_PAGES - cur_page start_page pos) % VBI_DMA_PAGES) * PAGE_SIZE - pos % PAGE_SIZE

/-- The pool byte that holds stream position `pos + t` of a session started at
`start_page`: page `cur_page start_page (pos + t)`, offset `(pos + t) % PAGE_SIZE`. -/
def stream_byte (start_page : Nat) (pool : Pool) (pos t : Nat) : Nat :=
  pool (cur_page start_page (pos + t)) ((pos + t) % PAGE_SIZE)

/-- The locals of `cx88sdr_read` after `t` chunks have been copied with success. -/
def chunk_state (start_page : Nat) (v : ReadVars) (t : Nat) : ReadVars :=
  (read_step start_page)^[t] v

/-- The pixel format is one of the two supported ones and the band one of the three. -/
def valid_config (dev : Dev) : Prop :=
  (dev.pixelformat = V4L2_SDR_FMT_RU8 ∨ dev.pixelformat = V4L2_SDR_FMT_RU16LE) ∧
  (dev.sdr_band = CX88SDR_BAND_00 ∨ dev.sdr_band = CX88SDR_BAND_01 ∨
    dev.sdr_band = CX88SDR_BAND_02)

/-- The band table that goes with a pixel format. -/
def bands_of (pixelformat : Nat) : List FrequencyBand :=
  if pixelformat = V4L2_SDR_FMT_RU8 then cx88sdr_bands_ru08 else cx88sdr_bands_ru16

/-- A device in 8-bit format on band 0 with one session open, started at page 7. -/
def dev_band0_open : Dev :=
  { start_page := 7, gain := 0, input := 1, sdr_band := CX88SDR_BAND_00,
    pixelformat := V4L2_SDR_FMT_RU8, buffersize := 1, fh_list := 1, mmio := [] }

/-- A consumer buffer of which only the first byte can be written. -/
def copy_first_byte_only (buf len : Nat) : Nat :=
  if buf + len ≤ 1 then 0 else len

/-- A pool whose byte at offset `j` of page `p` is `p + j + 1`. -/
def sample_pool : Pool := fun p j => p + j + 1

/-! ## Facts about the constants -/

theorem PAGE_SIZE_eq : PAGE_SIZE = 4096 := by decide

theorem VBI_DMA_PAGES_eq : VBI_DMA_PAGES = 16384 := by decide

theorem VBI_DMA_SIZE_eq : VBI_DMA_SIZE = 67108864 := by decide

theorem CLUSTER_BUF_SIZE_eq : CLUSTER_BUF_SIZE = 2048 := by decide

/-! ## Ring reader -/

/-- C2: a non-blocking read whose producer page equals the current page returns
`-EAGAIN`, stores nothing to the consumer and leaves `*pos` and the pool as they
were. -/
theorem read_nonblock_would_block (fuel start_page pos size : Nat)
    (copy_to_user : Nat → Nat → Nat) (gpcnt : Nat → Nat) (pool : Pool)
    (h : producer_page (gpcnt 0) = cur_page start_page pos) :
    cx88sdr_read (fuel + 1) true start_page copy_to_user gpcnt pool size pos
      = some { ret := -EAGAIN, pos := pos, pool := pool, user := [] } := by
  simp [cx88sdr_read, read_init, read_retry, h]

theorem read_nonblock_would_block_witness :
    producer_page ((fun _ => 6) 0) = cur_page 5 0 ∧
    cx88sdr_read (0 + 1) true 5 (fun _ _ => 0) (fun _ => 6) (fun p j => p + j) 4096 0
      = some { ret := -EAGAIN, pos := 0, pool := (fun p j => p + j), user := [] } :=
  ⟨by decide, read_nonblock_would_block 0 5 0 4096 (fun _ _ => 0) (fun _ => 6)
    (fun p j => p + j) (by decide)⟩

/-! ## Open and release -/

theorem u32_dec_eq (x : Nat) : u32_dec x = (x % U32 + (U32 - 1)) % U32 := by
  unfold u32_dec U32
  split <;> omega

/-- C3 (as the code has it): `cx88sdr_open` has no single-consumer check.  In
every device state, with or without open sessions, it returns 0 once the handle
is allocated, adds a handle, sets `start_page` to the counter minus one on 32
bits and unmasks the interrupt; the same holds for an open that follows a
release. -/
theorem open_sets_start_page (gpcnt gpcnt2 : Nat) (dev : Dev) :
    cx88sdr_open true gpcnt dev =
      (0, { dev with start_page := u32_dec gpcnt,
                     fh_list := dev.fh_list + 1,
                     mmio := dev.mmio ++ [(MO_PCI_INTMSK, 1)] }) ∧
    u32_dec gpcnt = (gpcnt % U32 + (U32 - 1)) % U32 ∧
    (cx88sdr_open true gpcnt2 (cx88sdr_release dev).2).1 = 0 ∧
    (cx88sdr_open true gpcnt2 (cx88sdr_release dev).2).2.start_page = u32_dec gpcnt2 := by
  refine ⟨?_, u32_dec_eq gpcnt, ?_, ?_⟩ <;> simp [cx88sdr_open, cx88sdr_release, ctrl_iowrite32]

/-- C3 fails as stated: with a session already open, a second open returns 0
and moves `start_page` from 7 to 99. -/
theorem open_second_session_not_refused :
    0 < dev_band0_open.fh_list ∧
    (cx88sdr_open true 100 dev_band0_open).1 = 0 ∧
    (cx88sdr_open true 100 dev_band0_open).2.start_page = 99 ∧
    (cx88sdr_open true 100 dev_band0_open).2.start_page ≠ dev_band0_open.start_page ∧
    (cx88sdr_open true 100 dev_band0_open).2.fh_list = 2 := by
  decide

/-! ## Band selection -/

theorem rangelow_ru08 :
    cx88sdr_bands_ru08.map (fun b => b.rangelow) = [14318181, 28636363, 35795453] := by
  decide

theorem rangelow_ru16 :
    cx88sdr_bands_ru16.map (fun b => b.rangelow) = [7159090, 14318181, 17897726] := by
  decide

theorem rangelow_at_ru08_01 : rangelow_at cx88sdr_bands_ru08 CX88SDR_BAND_01 = 28636363 := by
  decide

theorem rangelow_at_ru08_02 : rangelow_at cx88sdr_bands_ru08 CX88SDR_BAND_02 = 35795453 := by
  decide

theorem rangehigh_at_ru08_00 : rangehigh_at cx88sdr_bands_ru08 CX88SDR_BAND_00 = 14318181 := by
  decide

theorem rangehigh_at_ru08_01 : rangehigh_at cx88sdr_bands_ru08 CX88SDR_BAND_01 = 28636363 := by
  decide

theorem rangelow_at_ru16_01 : rangelow_at cx88sdr_bands_ru16 CX88SDR_BAND_01 = 14318181 := by
  decide

theorem rangelow_at_ru16_02 : rangelow_at cx88sdr_bands_ru16 CX88SDR_BAND_02 = 17897726 := by
  decide

theorem rangehigh_at_ru16_00 : rangehigh_at cx88sdr_bands_ru16 CX88SDR_BAND_00 = 7159090 := by
  decide

theorem rangehigh_at_ru16_01 : rangehigh_at cx88sdr_bands_ru16 CX88SDR_BAND_01 = 14318181 := by
  decide

theorem adc_band_set_fields (dev : Dev) :
    (adc_band_set dev).2.sdr_band = dev.sdr_band ∧
    (adc_band_set dev).2.pixelformat = dev.pixelformat := by
  unfold adc_band_set
  split_ifs <;> simp [ctrl_iowrite32]

theorem adc_fmt_set_fields (dev : Dev) :
    (cx88sdr_adc_fmt_set dev).2.sdr_band = dev.sdr_band ∧
    (cx88sdr_adc_fmt_set dev).2.pixelformat = dev.pixelformat := by
  unfold cx88sdr_adc_fmt_set
  split_ifs <;> simp [adc_band_set_fields, ctrl_iowrite32]

theorem adc_band_set_ret (dev : Dev)
    (h : dev.sdr_band = CX88SDR_BAND_00 ∨ dev.sdr_band = CX88SDR_BAND_01 ∨
      dev.sdr_band = CX88SDR_BAND_02) : (adc_band_set dev).1 = 0 := by
  unfold adc_band_set
  rcases h with h | h | h <;> simp [h, CX88SDR_BAND_00, CX88SDR_BAND_01, CX88SDR_BAND_02]

theorem adc_fmt_set_ret (dev : Dev) (h : valid_config dev) : (cx88sdr_adc_fmt_set dev).1 = 0 := by
  unfold cx88sdr_adc_fmt_set
  obtain ⟨hf, hb⟩ := h
  have hb1 : ∀ v, (ctrl_iowrite32 dev MO_CAPTURE_CTRL v).sdr_band = dev.sdr_band := fun _ => rfl
  rcases hf with hf | hf
  · rw [if_pos hf]
    exact adc_band_set_ret _ (by rw [hb1]; exact hb)
  · have hne : dev.pixelformat ≠ V4L2_SDR_FMT_RU8 := by rw [hf]; decide
    rw [if_neg hne, if_pos hf]
    exact adc_band_set_ret _ (by rw [hb1]; exact hb)

theorem select_band_fields (tbl : List FrequencyBand) (f : Nat) (dev : Dev) :
    (select_band tbl f dev).pixelformat = dev.pixelformat ∧
    ((select_band tbl f dev).sdr_band = dev.sdr_band ∨
      (select_band tbl f dev).sdr_band = CX88SDR_BAND_00 ∨
      (select_band tbl f dev).sdr_band = CX88SDR_BAND_01 ∨
      (select_band tbl f dev).sdr_band = CX88SDR_BAND_02) := by
  unfold select_band
  split_ifs <;> simp

theorem select_band_valid (tbl : List FrequencyBand) (f : Nat) (dev : Dev)
    (h : valid_config dev) : valid_config (select_band tbl f dev) := by
  obtain ⟨hp, hb⟩ := select_band_fields tbl f dev
  refine ⟨by rw [hp]; exact h.1, ?_⟩
  rcases hb with hb | hb | hb | hb
  · rw [hb]; exact h.2
  · exact Or.inl hb
  · exact Or.inr (Or.inl hb)
  · exact Or.inr (Or.inr hb)

/-- The band that `cx88sdr_s_frequency` leaves, for a valid format. -/
theorem s_frequency_band (dev : Dev) (f : Nat)
    (hfmt : dev.pixelformat = V4L2_SDR_FMT_RU8 ∨ dev.pixelformat = V4L2_SDR_FMT_RU16LE) :
    (cx88sdr_s_frequency 0 V4L2_TUNER_SDR f dev).2.sdr_band
      = (select_band (bands_of dev.pixelformat) f dev).sdr_band := by
  unfold cx88sdr_s_frequency bands_of
  rcases hfmt with h | h
  · simp [h, adc_fmt_set_fields]
  · have hne : V4L2_SDR_FMT_RU16LE ≠ V4L2_SDR_FMT_RU8 := by decide
    simp [h, hne, adc_fmt_set_fields]

theorem s_frequency_ret (dev : Dev) (f : Nat) (h : valid_config dev) :
    (cx88sdr_s_frequency 0 V4L2_TUNER_SDR f dev).1 = 0 ∧
    valid_config (cx88sdr_s_frequency 0 V4L2_TUNER_SDR f dev).2 ∧
    (cx88sdr_s_frequency 0 V4L2_TUNER_SDR f dev).2.pixelformat = dev.pixelformat := by
  have hv8 := select_band_valid cx88sdr_bands_ru08 f dev h
  have hv16 := select_band_valid cx88sdr_bands_ru16 f dev h
  have valid_after : ∀ d : Dev, valid_config d → valid_config (cx88sdr_adc_fmt_set d).2 := by
    intro d hd
    unfold valid_config
    rw [(adc_fmt_set_fields d).1, (adc_fmt_set_fields d).2]
    exact hd
  unfold cx88sdr_s_frequency
  rcases h.1 with hf | hf
  · simp only [gt_iff_lt, lt_self_iff_false, ne_eq, not_true_eq_false, or_self, if_false,
      if_pos hf]
    exact ⟨adc_fmt_set_ret _ hv8, valid_after _ hv8,
      by rw [(adc_fmt_set_fields _).2, (select_band_fields _ _ _).1]⟩
  · have hne : dev.pixelformat ≠ V4L2_SDR_FMT_RU8 := by rw [hf]; decide
    simp only [gt_iff_lt, lt_self_iff_false, ne_eq, not_true_eq_false, or_self, if_false,
      if_neg hne, if_pos hf]
    exact ⟨adc_fmt_set_ret _ hv16, valid_after _ hv16,
      by rw [(adc_fmt_set_fields _).2, (select_band_fields _ _ _).1]⟩

/-- C5 (as the code has it): in 8-bit format, for a frequency strictly below
the low edge of band 1, the call selects band 0 from band 1 or 2; from band 0 it
stays on band 0 only up to the centre of band 0 and moves to band 1 above it. -/
theorem s_frequency_below_band1 (dev : Dev) (f : Nat)
    (hfmt : dev.pixelformat = V4L2_SDR_FMT_RU8)
    (hband : dev.sdr_band = CX88SDR_BAND_00 ∨ dev.sdr_band = CX88SDR_BAND_01 ∨
      dev.sdr_band = CX88SDR_BAND_02)
    (hf : f < rangelow_at cx88sdr_bands_ru08 CX88SDR_BAND_01) :
    (cx88sdr_s_frequency 0 V4L2_TUNER_SDR f dev).1 = 0 ∧
    (cx88sdr_s_frequency 0 V4L2_TUNER_SDR f dev).2.sdr_band =
      if dev.sdr_band = CX88SDR_BAND_00 ∧ rangehigh_at cx88sdr_bands_ru08 CX88SDR_BAND_00 < f
      then CX88SDR_BAND_01 else CX88SDR_BAND_00 := by
  have hv : valid_config dev := ⟨Or.inl hfmt, hband⟩
  refine ⟨(s_frequency_ret dev f hv).1, ?_⟩
  rw [s_frequency_band dev f (Or.inl hfmt)]
  rw [rangelow_at_ru08_01] at hf
  simp only [bands_of, hfmt, if_true, select_band, rangelow_at_ru08_01, rangelow_at_ru08_02,
    rangehigh_at_ru08_00, rangehigh_at_ru08_01]
  simp only [CX88SDR_BAND_00, CX88SDR_BAND_01, CX88SDR_BAND_02] at hband ⊢
  rcases hband with hb | hb | hb <;> simp only [hb] <;> split_ifs <;> simp_all <;> omega

theorem s_frequency_below_band1_witness :
    (cx88sdr_s_frequency 0 V4L2_TUNER_SDR 20000000 dev_band0_open).1 = 0 ∧
    (cx88sdr_s_frequency 0 V4L2_TUNER_SDR 20000000 dev_band0_open).2.sdr_band =
      if dev_band0_open.sdr_band = CX88SDR_BAND_00 ∧
        rangehigh_at cx88sdr_bands_ru08 CX88SDR_BAND_00 < 20000000
      then CX88SDR_BAND_01 else CX88SDR_BAND_00 :=
  s_frequency_below_band1 dev_band0_open 20000000 (by decide) (by decide) (by decide)

/-- C5 fails as stated: in 8-bit format on band 0, a frequency of 20 MHz, which
is strictly below the low edge of band 1, selects band 1. -/
theorem s_frequency_below_band1_leaves_band0 :
    dev_band0_open.pixelformat = V4L2_SDR_FMT_RU8 ∧
    dev_band0_open.sdr_band = CX88SDR_BAND_00 ∧
    20000000 < rangelow_at cx88sdr_bands_ru08 CX88SDR_BAND_01 ∧
    (cx88sdr_s_frequency 0 V4L2_TUNER_SDR 20000000 dev_band0_open).2.sdr_band
      = CX88SDR_BAND_01 ∧
    (cx88sdr_s_frequency 0 V4L2_TUNER_SDR 20000000 dev_band0_open).2.sdr_band
      ≠ CX88SDR_BAND_00 := by
  decide

theorem adc_setup_fields (intstat : Nat) (d : Dev) :
    (cx88sdr_adc_setup intstat d).sdr_band = d.sdr_band ∧
    (cx88sdr_adc_setup intstat d).pixelformat = d.pixelformat := by
  simp only [cx88sdr_adc_setup, ctrl_iowrite32, and_self]

theorem probe_init_fields (intstat : Nat) (d0 : Dev) :
    (cx88sdr_probe_init intstat d0).2.sdr_band = CX88SDR_BAND_01 ∧
    (cx88sdr_probe_init intstat d0).2.pixelformat = V4L2_SDR_FMT_RU8 := by
  simp only [cx88sdr_probe_init, adc_fmt_set_fields, adc_setup_fields, and_self]

theorem probe_init_ret (intstat : Nat) (d0 : Dev) : (cx88sdr_probe_init intstat d0).1 = 0 := by
  unfold cx88sdr_probe_init
  apply adc_fmt_set_ret
  simp only [valid_config, adc_setup_fields, true_or, or_true, and_self]

theorem adc_fmt_set_valid (d : Dev) (hd : valid_config d) :
    valid_config (cx88sdr_adc_fmt_set d).2 := by
  unfold valid_config
  rw [(adc_fmt_set_fields d).1, (adc_fmt_set_fields d).2]
  exact hd

theorem s_fmt_fields (f : SdrFormat) (dev : Dev) :
    (cx88sdr_s_fmt_sdr f dev).2.1.sdr_band = dev.sdr_band ∧
    (cx88sdr_s_fmt_sdr f dev).2.1.pixelformat =
      if f.pixelformat = V4L2_SDR_FMT_RU16LE then V4L2_SDR_FMT_RU16LE else V4L2_SDR_FMT_RU8 := by
  simp only [cx88sdr_s_fmt_sdr, s_fmt_switch, adc_fmt_set_fields]
  have hne : V4L2_SDR_FMT_RU8 ≠ V4L2_SDR_FMT_RU16LE := by decide
  split_ifs <;> simp_all only [and_self, ne_eq, not_false_eq_true, not_true_eq_false]

theorem s_fmt_valid (f : SdrFormat) (dev : Dev) (h : valid_config dev) :
    valid_config (cx88sdr_s_fmt_sdr f dev).2.1 := by
  unfold valid_config
  rw [(s_fmt_fields f dev).1, (s_fmt_fields f dev).2]
  refine ⟨?_, h.2⟩
  split_ifs
  · exact Or.inr rfl
  · exact Or.inl rfl

theorem open_fields (ok : Bool) (gpcnt : Nat) (dev : Dev) :
    (cx88sdr_open ok gpcnt dev).2.pixelformat = dev.pixelformat ∧
    (cx88sdr_open ok gpcnt dev).2.sdr_band = dev.sdr_band := by
  cases ok <;> simp [cx88sdr_open, ctrl_iowrite32]

theorem release_fields (dev : Dev) :
    (cx88sdr_release dev).2.pixelformat = dev.pixelformat ∧
    (cx88sdr_release dev).2.sdr_band = dev.sdr_band := by
  simp only [cx88sdr_release, ctrl_iowrite32, and_self]

theorem reachable_valid (dev : Dev) (h : Reachable dev) : valid_config dev := by
  induction h with
  | probe intstat d0 =>
    unfold valid_config
    rw [(probe_init_fields intstat d0).1, (probe_init_fields intstat d0).2]
    exact ⟨Or.inl rfl, Or.inr (Or.inl rfl)⟩
  | s_frequency tuner type frequency dev _ ih =>
    unfold cx88sdr_s_frequency
    split_ifs
    · exact ih
    · exact adc_fmt_set_valid _ (select_band_valid cx88sdr_bands_ru08 frequency dev ih)
    · exact adc_fmt_set_valid _ (select_band_valid cx88sdr_bands_ru16 frequency dev ih)
    · exact ih
  | s_fmt f dev _ ih => exact s_fmt_valid f dev ih
  | open_ ok gpcnt dev _ ih =>
    unfold valid_config
    rw [(open_fields ok gpcnt dev).1, (open_fields ok gpcnt dev).2]
    exact ih
  | release dev _ ih =>
    unfold valid_config
    rw [(release_fields dev).1, (release_fields dev).2]
    exact ih

/-- C6: from a state with a valid format and band, `cx88sdr_s_frequency` (tuner 0,
type SDR) returns 0 for every frequency, lands on one of the three bands and
keeps the format; `cx88sdr_s_fmt_sdr` keeps the predicate too, the initial
values of probe establish it, and in every reachable state
`cx88sdr_adc_fmt_set` returns 0, hence never `-EINVAL`. -/
theorem s_frequency_never_fails (dev : Dev) (f : Nat) (h : valid_config dev) :
    (cx88sdr_s_frequency 0 V4L2_TUNER_SDR f dev).1 = 0 ∧
    valid_config (cx88sdr_s_frequency 0 V4L2_TUNER_SDR f dev).2 ∧
    (cx88sdr_s_frequency 0 V4L2_TUNER_SDR f dev).2.pixelformat = dev.pixelformat ∧
    (∀ fmt : SdrFormat, valid_config (cx88sdr_s_fmt_sdr fmt dev).2.1) ∧
    (∀ (intstat : Nat) (d0 : Dev), (cx88sdr_probe_init intstat d0).1 = 0 ∧
      valid_config (cx88sdr_probe_init intstat d0).2) ∧
    (∀ d : Dev, Reachable d → valid_config d ∧ (cx88sdr_adc_fmt_set d).1 = 0 ∧
      (cx88sdr_adc_fmt_set d).1 ≠ -EINVAL) := by
  obtain ⟨h1, h2, h3⟩ := s_frequency_ret dev f h
  refine ⟨h1, h2, h3, fun fmt => s_fmt_valid fmt dev h, ?_, ?_⟩
  · intro intstat d0
    exact ⟨probe_init_ret intstat d0, reachable_valid _ (Reachable.probe intstat d0)⟩
  · intro d hd
    have hv := reachable_valid d hd
    have h0 := adc_fmt_set_ret d hv
    have hne : (0 : Int) ≠ -EINVAL := by
      unfold EINVAL
      omega
    exact ⟨hv, h0, fun hc => hne (h0.symm.trans hc)⟩

theorem s_frequency_never_fails_witness :
    valid_config dev_band0_open ∧
    (cx88sdr_s_frequency 0 V4L2_TUNER_SDR 4294967295 dev_band0_open).1 = 0 :=
  ⟨⟨Or.inl rfl, Or.inl rfl⟩,
    (s_frequency_never_fails dev_band0_open 4294967295 ⟨Or.inl rfl, Or.inl rfl⟩).1⟩

theorem rangelow_at_ru08_00 : rangelow_at cx88sdr_bands_ru08 CX88SDR_BAND_00 = 14318181 := by
  decide

theorem rangelow_at_ru16_00 : rangelow_at cx88sdr_bands_ru16 CX88SDR_BAND_00 = 7159090 := by
  decide

theorem select_band_centre_ru08 (dev : Dev) (b : Nat)
    (hcur : dev.sdr_band = CX88SDR_BAND_00 ∨ dev.sdr_band = CX88SDR_BAND_01 ∨
      dev.sdr_band = CX88SDR_BAND_02)
    (hb : b = CX88SDR_BAND_00 ∨ b = CX88SDR_BAND_01 ∨ b = CX88SDR_BAND_02) :
    (select_band cx88sdr_bands_ru08 (rangelow_at cx88sdr_bands_ru08 b) dev).sdr_band = b := by
  unfold select_band
  rcases hb with hb | hb | hb <;> rcases hcur with hc | hc | hc <;>
    simp only [hb, hc, rangelow_at_ru08_00, rangelow_at_ru08_01, rangelow_at_ru08_02,
      rangehigh_at_ru08_00, rangehigh_at_ru08_01] <;>
    simp [hc, CX88SDR_BAND_00, CX88SDR_BAND_01, CX88SDR_BAND_02]

theorem select_band_centre_ru16 (dev : Dev) (b : Nat)
    (hcur : dev.sdr_band = CX88SDR_BAND_00 ∨ dev.sdr_band = CX88SDR_BAND_01 ∨
      dev.sdr_band = CX88SDR_BAND_02)
    (hb : b = CX88SDR_BAND_00 ∨ b = CX88SDR_BAND_01 ∨ b = CX88SDR_BAND_02) :
    (select_band cx88sdr_bands_ru16 (rangelow_at cx88sdr_bands_ru16 b) dev).sdr_band = b := by
  unfold select_band
  rcases hb with hb | hb | hb <;> rcases hcur with hc | hc | hc <;>
    simp only [hb, hc, rangelow_at_ru16_00, rangelow_at_ru16_01, rangelow_at_ru16_02,
      rangehigh_at_ru16_00, rangehigh_at_ru16_01] <;>
    simp [hc, CX88SDR_BAND_00, CX88SDR_BAND_01, CX88SDR_BAND_02]

theorem g_frequency_at (d : Dev) (g b : Nat)
    (hfmt : d.pixelformat = V4L2_SDR_FMT_RU8 ∨ d.pixelformat = V4L2_SDR_FMT_RU16LE)
    (hband : d.sdr_band = b)
    (hb : b = CX88SDR_BAND_00 ∨ b = CX88SDR_BAND_01 ∨ b = CX88SDR_BAND_02) :
    cx88sdr_g_frequency 0 g d = some (0, rangelow_at (bands_of d.pixelformat) b) := by
  have hne : V4L2_SDR_FMT_RU16LE ≠ V4L2_SDR_FMT_RU8 := by decide
  unfold cx88sdr_g_frequency bands_of rangelow_at
  rw [hband]
  rcases hfmt with hf | hf <;> rcases hb with hb | hb | hb <;>
    simp [hf, hb, hne, cx88sdr_bands_ru08, cx88sdr_bands_ru16, CX88SDR_BAND_00,
      CX88SDR_BAND_01, CX88SDR_BAND_02]

/-- C7: for both pixel formats, every band `b` and every current band, calling
`cx88sdr_s_frequency` with the table centre of `b` selects `b`, and
`cx88sdr_g_frequency` then returns that frequency; the centres are 14318181,
28636363, 35795453 Hz (8-bit) and 7159090, 14318181, 17897726 Hz (16-bit),
obtained from the crystal frequency by integer division. -/
theorem centre_frequency_round_trip (dev : Dev) (b g : Nat)
    (hfmt : dev.pixelformat = V4L2_SDR_FMT_RU8 ∨ dev.pixelformat = V4L2_SDR_FMT_RU16LE)
    (hcur : dev.sdr_band = CX88SDR_BAND_00 ∨ dev.sdr_band = CX88SDR_BAND_01 ∨
      dev.sdr_band = CX88SDR_BAND_02)
    (hb : b = CX88SDR_BAND_00 ∨ b = CX88SDR_BAND_01 ∨ b = CX88SDR_BAND_02) :
    (cx88sdr_s_frequency 0 V4L2_TUNER_SDR (rangelow_at (bands_of dev.pixelformat) b) dev).1 = 0 ∧
    (cx88sdr_s_frequency 0 V4L2_TUNER_SDR
      (rangelow_at (bands_of dev.pixelformat) b) dev).2.sdr_band = b ∧
    cx88sdr_g_frequency 0 g
      (cx88sdr_s_frequency 0 V4L2_TUNER_SDR (rangelow_at (bands_of dev.pixelformat) b) dev).2
      = some (0, rangelow_at (bands_of dev.pixelformat) b) ∧
    cx88sdr_bands_ru08.map (fun e => e.rangelow) = [14318181, 28636363, 35795453] ∧
    cx88sdr_bands_ru16.map (fun e => e.rangelow) = [7159090, 14318181, 17897726] ∧
    [CX88SDR_XTAL_FREQ / 2, CX88SDR_XTAL_FREQ, CX88SDR_XTAL_FREQ * 5 / 4,
      CX88SDR_XTAL_FREQ / 4, CX88SDR_XTAL_FREQ * 5 / 8]
      = [14318181, 28636363, 35795453, 7159090, 17897726] := by
  have hv : valid_config dev := ⟨hfmt, hcur⟩
  obtain ⟨h1, h2, h3⟩ := s_frequency_ret dev (rangelow_at (bands_of dev.pixelformat) b) hv
  have hband : (cx88sdr_s_frequency 0 V4L2_TUNER_SDR
      (rangelow_at (bands_of dev.pixelformat) b) dev).2.sdr_band = b := by
    rw [s_frequency_band dev _ hfmt]
    rcases hfmt with hf | hf
    · have hbo : bands_of dev.pixelformat = cx88sdr_bands_ru08 := by
        unfold bands_of
        rw [if_pos hf]
      rw [hbo]
      exact select_band_centre_ru08 dev b hcur hb
    · have hne : dev.pixelformat ≠ V4L2_SDR_FMT_RU8 := by rw [hf]; decide
      have hbo : bands_of dev.pixelformat = cx88sdr_bands_ru16 := by
        unfold bands_of
        rw [if_neg hne]
      rw [hbo]
      exact select_band_centre_ru16 dev b hcur hb
  refine ⟨h1, hband, ?_, rangelow_ru08, rangelow_ru16, by decide⟩
  have hg := g_frequency_at _ g b (by rw [h3]; exact hfmt) hband hb
  rw [h3] at hg
  exact hg

theorem centre_frequency_round_trip_witness :
    (cx88sdr_s_frequency 0 V4L2_TUNER_SDR
      (rangelow_at (bands_of dev_band0_open.pixelformat) 2) dev_band0_open).2.sdr_band = 2 ∧
    cx88sdr_g_frequency 0 0
      (cx88sdr_s_frequency 0 V4L2_TUNER_SDR
        (rangelow_at (bands_of dev_band0_open.pixelformat) 2) dev_band0_open).2
      = some (0, rangelow_at (bands_of dev_band0_open.pixelformat) 2) :=
  ⟨(centre_frequency_round_trip dev_band0_open 2 0 (Or.inl rfl) (Or.inl rfl)
      (Or.inr (Or.inr rfl))).2.1,
    (centre_frequency_round_trip dev_band0_open 2 0 (Or.inl rfl) (Or.inl rfl)
      (Or.inr (Or.inr rfl))).2.2.1⟩

/-! ## Format selection -/

theorem adc_band_set_mmio (dev : Dev)
    (h : dev.sdr_band = CX88SDR_BAND_00 ∨ dev.sdr_band = CX88SDR_BAND_01 ∨
      dev.sdr_band = CX88SDR_BAND_02) :
    ∃ sconv pll, (adc_band_set dev).2.mmio
      = dev.mmio ++ [(MO_SCONV_REG, sconv), (MO_PLL_REG, pll)] := by
  unfold adc_band_set
  simp only [CX88SDR_BAND_00, CX88SDR_BAND_01, CX88SDR_BAND_02] at h ⊢
  rcases h with h | h | h
  · refine ⟨(1 <<< 17) * 2, (1 <<< 26) ||| (0x14 <<< 20), ?_⟩
    simp only [h, if_true, ctrl_iowrite32, List.append_assoc, List.singleton_append]
  · refine ⟨1 <<< 17, 0x10 <<< 20, ?_⟩
    simp only [h, one_ne_zero, if_false, if_true, ctrl_iowrite32, List.append_assoc,
      List.singleton_append]
  · refine ⟨(1 <<< 17) * 4 / 5, 0x14 <<< 20, ?_⟩
    simp only [h, OfNat.ofNat_ne_zero, OfNat.ofNat_ne_one, if_false, if_true, ctrl_iowrite32,
      List.append_assoc, List.singleton_append]

theorem s_fmt_parts (f : SdrFormat) (dev : Dev) :
    (cx88sdr_s_fmt_sdr f dev).1 = (cx88sdr_adc_fmt_set (s_fmt_switch f dev).1).1 ∧
    (cx88sdr_s_fmt_sdr f dev).2.1 = (cx88sdr_adc_fmt_set (s_fmt_switch f dev).1).2 ∧
    (cx88sdr_s_fmt_sdr f dev).2.2 = (s_fmt_switch f dev).2 :=
  ⟨rfl, rfl, rfl⟩

theorem s_fmt_switch_dev (f : SdrFormat) (dev : Dev) :
    (s_fmt_switch f dev).1.sdr_band = dev.sdr_band ∧
    (s_fmt_switch f dev).1.mmio = dev.mmio ∧
    (s_fmt_switch f dev).1.pixelformat =
      (if f.pixelformat = V4L2_SDR_FMT_RU16LE then V4L2_SDR_FMT_RU16LE
        else V4L2_SDR_FMT_RU8) ∧
    (s_fmt_switch f dev).2.pixelformat =
      (if f.pixelformat = V4L2_SDR_FMT_RU16LE then V4L2_SDR_FMT_RU16LE
        else V4L2_SDR_FMT_RU8) := by
  have hne : V4L2_SDR_FMT_RU8 ≠ V4L2_SDR_FMT_RU16LE := by decide
  unfold s_fmt_switch
  by_cases h8 : f.pixelformat = V4L2_SDR_FMT_RU8
  · have h16 : ¬ f.pixelformat = V4L2_SDR_FMT_RU16LE := fun h => hne (h8.symm.trans h)
    simp only [if_pos h8, if_neg h16, true_and]
    exact h8
  · by_cases h16 : f.pixelformat = V4L2_SDR_FMT_RU16LE
    · simp only [if_neg h8, if_pos h16, true_and]
      exact h16
    · simp only [if_neg h8, if_neg h16, and_self]

theorem adc_fmt_set_ru8_mmio (d : Dev) (hfmt : d.pixelformat = V4L2_SDR_FMT_RU8)
    (hband : d.sdr_band = CX88SDR_BAND_00 ∨ d.sdr_band = CX88SDR_BAND_01 ∨
      d.sdr_band = CX88SDR_BAND_02) :
    ∃ sconv pll, (cx88sdr_adc_fmt_set d).2.mmio =
      d.mmio ++ [(MO_CAPTURE_CTRL, (1 <<< 6) ||| (3 <<< 1)), (MO_SCONV_REG, sconv),
        (MO_PLL_REG, pll)] := by
  obtain ⟨sconv, pll, hm⟩ := adc_band_set_mmio
    (ctrl_iowrite32 d MO_CAPTURE_CTRL ((1 <<< 6) ||| (3 <<< 1))) hband
  refine ⟨sconv, pll, ?_⟩
  unfold cx88sdr_adc_fmt_set
  rw [if_pos hfmt, hm]
  simp only [ctrl_iowrite32, List.append_assoc, List.singleton_append]

/-- C8: `cx88sdr_s_fmt_sdr` does not reject an unknown pixel format: with a
valid band it returns 0, sets the device format to RU8, rewrites the request to
RU8 and writes the 8-bit pattern `(1 << 6) | (3 << 1)` to `MO_CAPTURE_CTRL`; a
request of RU8 or RU16LE makes the device format exactly the requested one. -/
theorem s_fmt_fallback (f : SdrFormat) (dev : Dev)
    (hband : dev.sdr_band = CX88SDR_BAND_00 ∨ dev.sdr_band = CX88SDR_BAND_01 ∨
      dev.sdr_band = CX88SDR_BAND_02) :
    (f.pixelformat ≠ V4L2_SDR_FMT_RU8 → f.pixelformat ≠ V4L2_SDR_FMT_RU16LE →
      (cx88sdr_s_fmt_sdr f dev).1 = 0 ∧
      (cx88sdr_s_fmt_sdr f dev).2.1.pixelformat = V4L2_SDR_FMT_RU8 ∧
      (cx88sdr_s_fmt_sdr f dev).2.2.pixelformat = V4L2_SDR_FMT_RU8 ∧
      ∃ sconv pll, (cx88sdr_s_fmt_sdr f dev).2.1.mmio =
        dev.mmio ++ [(MO_CAPTURE_CTRL, (1 <<< 6) ||| (3 <<< 1)), (MO_SCONV_REG, sconv),
          (MO_PLL_REG, pll)]) ∧
    (f.pixelformat = V4L2_SDR_FMT_RU8 ∨ f.pixelformat = V4L2_SDR_FMT_RU16LE →
      (cx88sdr_s_fmt_sdr f dev).1 = 0 ∧
      (cx88sdr_s_fmt_sdr f dev).2.1.pixelformat = f.pixelformat ∧
      (cx88sdr_s_fmt_sdr f dev).2.2.pixelformat = f.pixelformat) := by
  have hne : V4L2_SDR_FMT_RU8 ≠ V4L2_SDR_FMT_RU16LE := by decide
  obtain ⟨p1, p2, p3⟩ := s_fmt_parts f dev
  obtain ⟨d1, d2, d3, d4⟩ := s_fmt_switch_dev f dev
  have hv : valid_config (s_fmt_switch f dev).1 := by
    refine ⟨?_, by rw [d1]; exact hband⟩
    rw [d3]
    split_ifs
    · exact Or.inr rfl
    · exact Or.inl rfl
  have hret : (cx88sdr_s_fmt_sdr f dev).1 = 0 := by
    rw [p1]
    exact adc_fmt_set_ret _ hv
  have hdev : (cx88sdr_s_fmt_sdr f dev).2.1.pixelformat =
      (if f.pixelformat = V4L2_SDR_FMT_RU16LE then V4L2_SDR_FMT_RU16LE
        else V4L2_SDR_FMT_RU8) := (s_fmt_fields f dev).2
  have hreq : (cx88sdr_s_fmt_sdr f dev).2.2.pixelformat =
      (if f.pixelformat = V4L2_SDR_FMT_RU16LE then V4L2_SDR_FMT_RU16LE
        else V4L2_SDR_FMT_RU8) := by
    rw [p3]
    exact d4
  constructor
  · intro h8 h16
    rw [if_neg h16] at hdev hreq d3
    refine ⟨hret, hdev, hreq, ?_⟩
    obtain ⟨sconv, pll, hm⟩ := adc_fmt_set_ru8_mmio (s_fmt_switch f dev).1 d3
      (by rw [d1]; exact hband)
    refine ⟨sconv, pll, ?_⟩
    rw [p2, hm, d2]
  · intro h
    rcases h with h | h
    · have h16 : f.pixelformat ≠ V4L2_SDR_FMT_RU16LE := by rw [h]; exact hne
      rw [if_neg h16] at hdev hreq
      exact ⟨hret, hdev.trans h.symm, hreq.trans h.symm⟩
    · rw [if_pos h] at hdev hreq
      exact ⟨hret, hdev.trans h.symm, hreq.trans h.symm⟩

theorem s_fmt_fallback_witness :
    (cx88sdr_s_fmt_sdr { pixelformat := 5, buffersize := 9 } dev_band0_open).1 = 0 ∧
    (cx88sdr_s_fmt_sdr { pixelformat := 5, buffersize := 9 } dev_band0_open).2.1.pixelformat
      = V4L2_SDR_FMT_RU8 ∧
    (cx88sdr_s_fmt_sdr { pixelformat := 5, buffersize := 9 } dev_band0_open).2.2.pixelformat
      = V4L2_SDR_FMT_RU8 ∧
    ∃ sconv pll,
      (cx88sdr_s_fmt_sdr { pixelformat := 5, buffersize := 9 } dev_band0_open).2.1.mmio =
        dev_band0_open.mmio ++ [(MO_CAPTURE_CTRL, (1 <<< 6) ||| (3 <<< 1)),
          (MO_SCONV_REG, sconv), (MO_PLL_REG, pll)] :=
  (s_fmt_fallback { pixelformat := 5, buffersize := 9 } dev_band0_open (Or.inl rfl)).1
    (by decide) (by decide)

/-! ## RISC instruction program -/

theorem risc_loop_length (pg : Nat → Nat) (n i irqt : Nat) :
    (risc_loop pg n i irqt).length = 4 * n := by
  induction n generalizing i irqt with
  | zero => rfl
  | succ n ih =>
    simp only [risc_loop, List.length_append, List.length_cons, List.length_nil, ih]
    omega

theorem irqt_step (irqt : Nat) : (irqt + 1) &&& 0x1ff = (irqt + 1) % 512 :=
  Nat.and_pow_two_sub_one_eq_mod (irqt + 1) 9

/-- The four words that the loop stores for the `t`-th page after its start. -/
theorem risc_loop_get (pg : Nat → Nat) (n i irqt t : Nat) (ht : t < n) :
    (risc_loop pg n i irqt)[4 * t]? = some risc_write_lo ∧
    (risc_loop pg n i irqt)[4 * t + 1]? = some (pg (i + t) % U32) ∧
    (risc_loop pg n i irqt)[4 * t + 2]? =
      some (risc_write_hi (i + t) ((irqt + t + 1) % 512)) ∧
    (risc_loop pg n i irqt)[4 * t + 3]? =
      some ((pg (i + t) % U32 + CLUSTER_BUF_SIZE) % U32) := by
  induction n generalizing i irqt t with
  | zero => omega
  | succ n ih =>
    cases t with
    | zero =>
      simp only [risc_loop, irqt_step, Nat.mul_zero, Nat.add_zero, Nat.zero_add,
        List.cons_append, List.nil_append, List.getElem?_cons_zero, List.getElem?_cons_succ,
        and_self]
    | succ t =>
      obtain ⟨h0, h1, h2, h3⟩ := ih (i + 1) ((irqt + 1) % 512) t (by omega)
      have e0 : 4 * (t + 1) = 4 * t + 1 + 1 + 1 + 1 := by omega
      have e2 : 4 * t + 1 + 1 + 1 + 1 + 2 = 4 * t + 2 + 1 + 1 + 1 + 1 := by omega
      have e3 : 4 * t + 1 + 1 + 1 + 1 + 3 = 4 * t + 3 + 1 + 1 + 1 + 1 := by omega
      have ei : i + (t + 1) = i + 1 + t := by omega
      have eq : (irqt + (t + 1) + 1) % 512 = ((irqt + 1) % 512 + t + 1) % 512 := by omega
      rw [e0, e2, e3, ei, eq]
      simp only [risc_loop, irqt_step, List.cons_append, List.nil_append,
        List.getElem?_cons_succ]
      exact ⟨h0, h1, h2, h3⟩

theorem risc_write_lo_fields :
    risc_write_lo &&& 0xf0000000 = RISC_WRITE ∧ risc_write_lo &&& 0xfff = CLUSTER_BUF_SIZE := by
  decide

theorem risc_write_hi_fields (i irqt : Nat) :
    risc_write_hi i irqt &&& 0xf0000000 = RISC_WRITE ∧
    risc_write_hi i irqt &&& 0xfff = CLUSTER_BUF_SIZE := by
  unfold risc_write_hi
  split_ifs <;> decide

theorem risc_prog_head (phy : Nat) (pg : Nat → Nat) :
    (cx88sdr_make_risc_instructions phy pg)[0]? = some (RISC_SYNC ||| (3 <<< 16)) := by
  simp only [cx88sdr_make_risc_instructions, List.singleton_append, List.cons_append,
    List.nil_append, List.getElem?_cons_zero]

theorem risc_prog_body (phy : Nat) (pg : Nat → Nat) (k : Nat) (hk : k < 4 * VBI_DMA_PAGES) :
    (cx88sdr_make_risc_instructions phy pg)[k + 1]? =
      (risc_loop pg VBI_DMA_PAGES 0 0)[k]? := by
  simp only [cx88sdr_make_risc_instructions, List.singleton_append, List.cons_append,
    List.nil_append, List.getElem?_cons_succ]
  exact List.getElem?_append_left (by rw [risc_loop_length]; exact hk)

theorem risc_prog_tail (phy : Nat) (pg : Nat → Nat) :
    (cx88sdr_make_risc_instructions phy pg)[4 * VBI_DMA_PAGES + 1]? = some RISC_JUMP ∧
    (cx88sdr_make_risc_instructions phy pg)[4 * VBI_DMA_PAGES + 1 + 1]? =
      some ((phy + 4) % U32) := by
  have hlen := risc_loop_length pg VBI_DMA_PAGES 0 0
  simp only [cx88sdr_make_risc_instructions, List.singleton_append, List.cons_append,
    List.nil_append, List.getElem?_cons_succ]
  constructor
  · rw [List.getElem?_append_right (by rw [hlen]), hlen, Nat.sub_self]
    rfl
  · rw [List.getElem?_append_right (by rw [hlen]; omega), hlen, Nat.add_sub_cancel_left]
    rfl

theorem risc_prog_length (phy : Nat) (pg : Nat → Nat) :
    (cx88sdr_make_risc_instructions phy pg).length = 4 * VBI_DMA_PAGES + 3 := by
  simp only [cx88sdr_make_risc_instructions, List.length_append, List.length_cons,
    List.length_nil, risc_loop_length]
  omega

/-- C9: the program is one sync word, then `2 * VBI_DMA_PAGES` two-word write
instructions, then the two-word jump: `4 * VBI_DMA_PAGES + 3` words, that is
262156 bytes, which fit in the 266240 bytes of the instruction buffer. -/
theorem risc_program_size (phy : Nat) (pg : Nat → Nat) :
    (cx88sdr_make_risc_instructions phy pg).length = 4 * VBI_DMA_PAGES + 3 ∧
    (cx88sdr_make_risc_instructions phy pg)[0]? = some (RISC_SYNC ||| (3 <<< 16)) ∧
    (∀ j : Fin (2 * VBI_DMA_PAGES), ∃ w,
      (cx88sdr_make_risc_instructions phy pg)[2 * j.val + 1]? = some w ∧
      w &&& 0xf0000000 = RISC_WRITE) ∧
    (cx88sdr_make_risc_instructions phy pg)[4 * VBI_DMA_PAGES + 1]? = some RISC_JUMP ∧
    (cx88sdr_make_risc_instructions phy pg)[4 * VBI_DMA_PAGES + 1 + 1]? =
      some ((phy + 4) % U32) ∧
    VBI_DMA_PAGES = VBI_DMA_SIZE / PAGE_SIZE ∧
    4 * (cx88sdr_make_risc_instructions phy pg).length = 262156 ∧
    risc_inst_buff_size = 266240 ∧
    4 * (cx88sdr_make_risc_instructions phy pg).length ≤ risc_inst_buff_size := by
  have hlen := risc_prog_length phy pg
  have hN : VBI_DMA_PAGES = 16384 := VBI_DMA_PAGES_eq
  have hbuf : risc_inst_buff_size = 266240 := by decide
  refine ⟨hlen, risc_prog_head phy pg, ?_, (risc_prog_tail phy pg).1, (risc_prog_tail phy pg).2,
    by decide, ?_, hbuf, ?_⟩
  · intro j
    have hj := j.isLt
    obtain ⟨h0, _, h2, _⟩ := risc_loop_get pg VBI_DMA_PAGES 0 0 (j.val / 2) (by omega)
    rcases Nat.mod_two_eq_zero_or_one j.val with hm | hm
    · refine ⟨risc_write_lo, ?_, risc_write_lo_fields.1⟩
      rw [risc_prog_body phy pg _ (by omega)]
      have e : 2 * j.val = 4 * (j.val / 2) := by omega
      rw [e]
      exact h0
    · refine ⟨risc_write_hi (0 + j.val / 2) ((0 + j.val / 2 + 1) % 512), ?_,
        (risc_write_hi_fields _ _).1⟩
      rw [risc_prog_body phy pg _ (by omega)]
      have e : 2 * j.val = 4 * (j.val / 2) + 2 := by omega
      rw [e]
      exact h2
  · rw [hlen, hN]
  · rw [hlen, hN, hbuf]
    decide

/-- C10: for every page `i` whose bus address leaves room for a page below
`2 ^ 32`, the words at indices `1 + 4 i .. 4 + 4 i` are a write instruction,
the page address, a write instruction and the page address plus
`CLUSTER_BUF_SIZE`; both instructions have opcode `RISC_WRITE` and byte count
`CLUSTER_BUF_SIZE`, and two clusters make up one page. -/
theorem risc_page_tiling (phy : Nat) (pg : Nat → Nat) (i : Nat)
    (hi : i < VBI_DMA_PAGES) (hpage : pg i + PAGE_SIZE ≤ U32) :
    ∃ w1 w2,
      (cx88sdr_make_risc_instructions phy pg)[1 + 4 * i]? = some w1 ∧
      (cx88sdr_make_risc_instructions phy pg)[2 + 4 * i]? = some (pg i) ∧
      (cx88sdr_make_risc_instructions phy pg)[3 + 4 * i]? = some w2 ∧
      (cx88sdr_make_risc_instructions phy pg)[4 + 4 * i]? = some (pg i + CLUSTER_BUF_SIZE) ∧
      w1 &&& 0xf0000000 = RISC_WRITE ∧ w1 &&& 0xfff = CLUSTER_BUF_SIZE ∧
      w2 &&& 0xf0000000 = RISC_WRITE ∧ w2 &&& 0xfff = CLUSTER_BUF_SIZE ∧
      2 * CLUSTER_BUF_SIZE = PAGE_SIZE ∧
      pg i + CLUSTER_BUF_SIZE + CLUSTER_BUF_SIZE = pg i + PAGE_SIZE := by
  have hP : PAGE_SIZE = 4096 := PAGE_SIZE_eq
  have hC : CLUSTER_BUF_SIZE = 2048 := CLUSTER_BUF_SIZE_eq
  have hN : VBI_DMA_PAGES = 16384 := VBI_DMA_PAGES_eq
  have hU : U32 = 4294967296 := by decide
  obtain ⟨h0, h1, h2, h3⟩ := risc_loop_get pg VBI_DMA_PAGES 0 0 i hi
  rw [Nat.zero_add] at h1 h2 h3
  have a1 : pg i % U32 = pg i := Nat.mod_eq_of_lt (by omega)
  have a2 : (pg i % U32 + CLUSTER_BUF_SIZE) % U32 = pg i + CLUSTER_BUF_SIZE := by
    rw [a1]
    exact Nat.mod_eq_of_lt (by omega)
  rw [a1] at h1
  rw [a2] at h3
  refine ⟨risc_write_lo, risc_write_hi i ((i + 1) % 512), ?_, ?_, ?_, ?_,
    risc_write_lo_fields.1, risc_write_lo_fields.2,
    (risc_write_hi_fields _ _).1, (risc_write_hi_fields _ _).2, by rw [hP, hC], by omega⟩
  · have e : 1 + 4 * i = 4 * i + 1 := by omega
    exact (congrArg (fun k => (cx88sdr_make_risc_instructions phy pg)[k]?) e).trans
      ((risc_prog_body phy pg (4 * i) (by omega)).trans h0)
  · have e : 2 + 4 * i = 4 * i + 1 + 1 := by omega
    exact (congrArg (fun k => (cx88sdr_make_risc_instructions phy pg)[k]?) e).trans
      ((risc_prog_body phy pg (4 * i + 1) (by omega)).trans h1)
  · have e : 3 + 4 * i = 4 * i + 2 + 1 := by omega
    exact (congrArg (fun k => (cx88sdr_make_risc_instructions phy pg)[k]?) e).trans
      ((risc_prog_body phy pg (4 * i + 2) (by omega)).trans h2)
  · have e : 4 + 4 * i = 4 * i + 3 + 1 := by omega
    exact (congrArg (fun k => (cx88sdr_make_risc_instructions phy pg)[k]?) e).trans
      ((risc_prog_body phy pg (4 * i + 3) (by omega)).trans h3)

theorem risc_page_tiling_witness :
    ∃ w1 w2,
      (cx88sdr_make_risc_instructions 0x1000 (fun i => 0x100000 + 4096 * i))[1 + 4 * 3]?
        = some w1 ∧
      (cx88sdr_make_risc_instructions 0x1000 (fun i => 0x100000 + 4096 * i))[2 + 4 * 3]?
        = some ((fun i => 0x100000 + 4096 * i) 3) ∧
      (cx88sdr_make_risc_instructions 0x1000 (fun i => 0x100000 + 4096 * i))[3 + 4 * 3]?
        = some w2 ∧
      (cx88sdr_make_risc_instructions 0x1000 (fun i => 0x100000 + 4096 * i))[4 + 4 * 3]?
        = some ((fun i => 0x100000 + 4096 * i) 3 + CLUSTER_BUF_SIZE) ∧
      w1 &&& 0xf0000000 = RISC_WRITE ∧ w1 &&& 0xfff = CLUSTER_BUF_SIZE ∧
      w2 &&& 0xf0000000 = RISC_WRITE ∧ w2 &&& 0xfff = CLUSTER_BUF_SIZE ∧
      2 * CLUSTER_BUF_SIZE = PAGE_SIZE ∧
      (fun i => 0x100000 + 4096 * i) 3 + CLUSTER_BUF_SIZE + CLUSTER_BUF_SIZE
        = (fun i => 0x100000 + 4096 * i) 3 + PAGE_SIZE :=
  risc_page_tiling 0x1000 (fun i => 0x100000 + 4096 * i) 3 (by decide) (by decide)

/-! ## Ring reader: arithmetic of pages and chunks -/

theorem wrap_id (x : Nat) (h : x ≤ LLONG_MAX) : x % U64 = x := by
  unfold LLONG_MAX at h
  unfold U64
  omega

theorem to_s64_of_le (x : Nat) (h : x ≤ LLONG_MAX) : to_s64 x = (x : Int) := by
  unfold to_s64
  rw [wrap_id x h, if_pos h]

/-- While `*pos` is not negative the page index is `(start_page + *pos / PAGE_SIZE) mod N`. -/
theorem cur_page_eq (sp x : Nat) (hx : x ≤ LLONG_MAX) :
    cur_page sp x = (sp + x / 4096) % 16384 := by
  unfold cur_page
  rw [to_s64_of_le x hx, ← Int.ofNat_tmod, Int.shiftRight_eq_div_pow,
    ← Int.ofNat_ediv, ← Int.ofNat_add, ← Int.ofNat_tmod, ← Int.ofNat_emod, Int.toNat_ofNat,
    VBI_DMA_PAGES_eq, VBI_DMA_SIZE_eq]
  have h : (2 : Nat) ^ PAGE_SHIFT = 4096 := by decide
  have hU : U32 = 4294967296 := by decide
  rw [h, hU]
  omega

theorem chunk_len_eq (pos size : Nat) :
    chunk_len pos size = min (4096 - pos % 4096) size := by
  unfold chunk_len
  rw [PAGE_SIZE_eq]
  simp only [gt_iff_lt, ne_eq, ite_not]
  split_ifs <;> omega

theorem avail_eq (sp P pos : Nat) (hx : pos ≤ LLONG_MAX) :
    avail sp P pos = ((P + 16384 - (sp + pos / 4096) % 16384) % 16384) * 4096 - pos % 4096 := by
  unfold avail
  rw [cur_page_eq sp pos hx, VBI_DMA_PAGES_eq, PAGE_SIZE_eq]

theorem same_page_arith (sp pos len t : Nat) (hlen : len ≤ 4096 - pos % 4096) (ht : t < len) :
    (sp + (pos + t) / 4096) % 16384 = (sp + pos / 4096) % 16384 ∧
    (pos + t) % 4096 = pos % 4096 + t := by
  omega

theorem avail_step_arith (sp P pos size len : Nat) (hP : P < 16384)
    (hne : (sp + pos / 4096) % 16384 ≠ P) (hlen : len = min (4096 - pos % 4096) size) :
    min size (((P + 16384 - (sp + pos / 4096) % 16384) % 16384) * 4096 - pos % 4096) =
      len + min (size - len)
        (((P + 16384 - (sp + (pos + len) / 4096) % 16384) % 16384) * 4096
          - (pos + len) % 4096) := by
  omega

theorem chunk_le_avail_arith (sp P pos size len : Nat) (hP : P < 16384)
    (hne : (sp + pos / 4096) % 16384 ≠ P) (hlen : len = min (4096 - pos % 4096) size) :
    len ≤ min size (((P + 16384 - (sp + pos / 4096) % 16384) % 16384) * 4096 - pos % 4096) := by
  omega

theorem no_overlap_arith (sp P pos size len t : Nat)
    (hlen : len = min (4096 - pos % 4096) size) (h1 : len ≤ t)
    (h2 : t < min size (((P + 16384 - (sp + pos / 4096) % 16384) % 16384) * 4096 - pos % 4096)) :
    ¬ ((sp + (pos + t) / 4096) % 16384 = (sp + pos / 4096) % 16384 ∧
      pos % 4096 ≤ (pos + t) % 4096 ∧ (pos + t) % 4096 < pos % 4096 + len) := by
  omega

/-- Within the chunk that starts at `pos`, stream position `pos + t` lies in the
current page at offset `pos % PAGE_SIZE + t`. -/
theorem same_page (sp pos size t : Nat) (ht : t < chunk_len pos size)
    (hb : pos + t ≤ LLONG_MAX) :
    cur_page sp (pos + t) = cur_page sp pos ∧
    (pos + t) % PAGE_SIZE = pos % PAGE_SIZE + t := by
  rw [chunk_len_eq] at ht
  rw [cur_page_eq sp (pos + t) hb, cur_page_eq sp pos (by omega), PAGE_SIZE_eq]
  exact same_page_arith sp pos (min (4096 - pos % 4096) size) t (by omega) ht

/-- The chunk taken while the current page is not the producer page is part of
what is available. -/
theorem chunk_le_avail (sp P pos size : Nat) (hP : P < VBI_DMA_PAGES)
    (hne : cur_page sp pos ≠ P) (hb : pos ≤ LLONG_MAX) :
    chunk_len pos size ≤ min size (avail sp P pos) := by
  rw [VBI_DMA_PAGES_eq] at hP
  rw [cur_page_eq sp pos hb] at hne
  rw [avail_eq sp P pos hb]
  exact chunk_le_avail_arith sp P pos size (chunk_len pos size) hP hne (chunk_len_eq pos size)

/-- One chunk takes `chunk_len` bytes off what is available. -/
theorem avail_step (sp P pos size : Nat) (hP : P < VBI_DMA_PAGES)
    (hne : cur_page sp pos ≠ P) (hb : pos + chunk_len pos size ≤ LLONG_MAX) :
    min size (avail sp P pos) =
      chunk_len pos size +
        min (size - chunk_len pos size) (avail sp P (pos + chunk_len pos size)) := by
  have hb0 : pos ≤ LLONG_MAX := by omega
  rw [VBI_DMA_PAGES_eq] at hP
  rw [cur_page_eq sp pos hb0] at hne
  rw [avail_eq sp P pos hb0, avail_eq sp P _ hb]
  exact avail_step_arith sp P pos size (chunk_len pos size) hP hne (chunk_len_eq pos size)

/-- A stream position after the current chunk, still before the producer page,
does not fall into the bytes of the current chunk. -/
theorem no_overlap (sp P pos size t : Nat) (h1 : chunk_len pos size ≤ t)
    (h2 : t < min size (avail sp P pos)) (hb : pos + t ≤ LLONG_MAX) :
    ¬ (cur_page sp (pos + t) = cur_page sp pos ∧
      pos % PAGE_SIZE ≤ (pos + t) % PAGE_SIZE ∧
      (pos + t) % PAGE_SIZE < pos % PAGE_SIZE + chunk_len pos size) := by
  have hb0 : pos ≤ LLONG_MAX := by omega
  rw [avail_eq sp P pos hb0] at h2
  rw [cur_page_eq sp (pos + t) hb, cur_page_eq sp pos hb0, PAGE_SIZE_eq]
  exact no_overlap_arith sp P pos size (chunk_len pos size) t (chunk_len_eq pos size) h1 h2

theorem avail_at_producer (sp P pos : Nat) (hb : pos ≤ LLONG_MAX)
    (h : cur_page sp pos = P) : avail sp P pos = 0 := by
  rw [cur_page_eq sp pos hb] at h
  rw [avail_eq sp P pos hb]
  omega

theorem chunk_len_pos (pos size : Nat) (h : size ≠ 0) :
    1 ≤ chunk_len pos size ∧ chunk_len pos size ≤ size ∧
    pos % PAGE_SIZE + chunk_len pos size ≤ PAGE_SIZE := by
  rw [chunk_len_eq, PAGE_SIZE_eq]
  omega

theorem chunk_len_le (pos size : Nat) : chunk_len pos size ≤ size := by
  rw [chunk_len_eq]
  omega

theorem chunk_len_fits (pos size : Nat) : pos % PAGE_SIZE + chunk_len pos size ≤ PAGE_SIZE := by
  rw [chunk_len_eq, PAGE_SIZE_eq]
  omega

theorem read_while_exit (sp P : Nat) (cu : Nat → Nat → Nat) (fuel : Nat) (v : ReadVars)
    (h : ¬ (v.size ≠ 0 ∧ v.page ≠ P)) :
    read_while sp P cu fuel v = some (LoopExit.done v) := by
  cases fuel with
  | zero => rw [read_while, if_neg h]
  | succ f => rw [read_while, if_neg h]

theorem read_while_step (sp P : Nat) (cu : Nat → Nat → Nat) (f : Nat) (v : ReadVars)
    (h : v.size ≠ 0 ∧ v.page ≠ P) (hcu : cu v.buf (chunk_len v.pos v.size) = 0) :
    read_while sp P cu (f + 1) v = read_while sp P cu f (read_step sp v) := by
  rw [read_while, if_pos h]
  simp only [hcu, ne_eq, not_true_eq_false, if_false]

theorem read_while_fault (sp P : Nat) (cu : Nat → Nat → Nat) (f : Nat) (v : ReadVars)
    (h : v.size ≠ 0 ∧ v.page ≠ P) (hcu : cu v.buf (chunk_len v.pos v.size) ≠ 0) :
    read_while sp P cu (f + 1) v = some (LoopExit.fault
      { v with user := (v.user ++ page_slice v.pool v.page (v.pos % PAGE_SIZE)
          (chunk_len v.pos v.size - cu v.buf (chunk_len v.pos v.size))) }) := by
  rw [read_while, if_pos h]
  simp only [hcu, ne_eq, not_false_eq_true, if_true]

theorem read_step_fields (sp : Nat) (v : ReadVars) :
    (read_step sp v).pos = (v.pos + chunk_len v.pos v.size) % U64 ∧
    (read_step sp v).size = v.size - chunk_len v.pos v.size ∧
    (read_step sp v).result = (v.result + chunk_len v.pos v.size) % U64 ∧
    (read_step sp v).buf = v.buf + chunk_len v.pos v.size ∧
    (read_step sp v).page = cur_page sp (read_step sp v).pos ∧
    (read_step sp v).pool
      = memset_zero v.pool v.page (v.pos % PAGE_SIZE) (chunk_len v.pos v.size) ∧
    (read_step sp v).user
      = v.user ++ page_slice v.pool v.page (v.pos % PAGE_SIZE) (chunk_len v.pos v.size) :=
  ⟨rfl, rfl, rfl, rfl, rfl, rfl, rfl⟩

theorem memset_zero_apply (pool : Pool) (page off len p j : Nat) :
    memset_zero pool page off len p j =
      if p = page ∧ off ≤ j ∧ j < off + len then 0 else pool p j := rfl

theorem stream_byte_def (sp : Nat) (pool : Pool) (pos t : Nat) :
    stream_byte sp pool pos t = pool (cur_page sp (pos + t)) ((pos + t) % PAGE_SIZE) := rfl

/-- The chunk copied by one pass is the next `chunk_len` bytes of the stream. -/
theorem page_slice_stream (sp : Nat) (v : ReadVars) (hp : v.page = cur_page sp v.pos)
    (hb : v.pos + chunk_len v.pos v.size ≤ LLONG_MAX) :
    page_slice v.pool v.page (v.pos % PAGE_SIZE) (chunk_len v.pos v.size) =
      (List.range (chunk_len v.pos v.size)).map (stream_byte sp v.pool v.pos) := by
  unfold page_slice
  apply List.map_congr_left
  intro t ht
  rw [List.mem_range] at ht
  obtain ⟨h1, h2⟩ := same_page sp v.pos v.size t ht (by omega)
  rw [stream_byte_def, h1, h2, hp]

/-- The copy loop without faults, as long as `*pos` and `result` stay within
`LLONG_MAX`: it takes `min size avail` bytes of the stream, zeroes exactly those
bytes, and leaves the rest of the pool alone. -/
theorem read_while_spec (sp P : Nat) (cu : Nat → Nat → Nat) (hcu : ∀ b l, cu b l = 0)
    (hP : P < VBI_DMA_PAGES) :
    ∀ (fuel : Nat) (v : ReadVars), v.size ≤ fuel → v.page = cur_page sp v.pos →
    v.pos + min v.size (avail sp P v.pos) ≤ LLONG_MAX →
    v.result + min v.size (avail sp P v.pos) ≤ LLONG_MAX →
    ∃ w, read_while sp P cu fuel v = some (LoopExit.done w) ∧
      w.pos = v.pos + min v.size (avail sp P v.pos) ∧
      w.size = v.size - min v.size (avail sp P v.pos) ∧
      w.result = v.result + min v.size (avail sp P v.pos) ∧
      w.buf = v.buf + min v.size (avail sp P v.pos) ∧
      w.page = cur_page sp w.pos ∧
      w.user = v.user ++
        (List.range (min v.size (avail sp P v.pos))).map (stream_byte sp v.pool v.pos) ∧
      (∀ t, t < min v.size (avail sp P v.pos) →
        w.pool (cur_page sp (v.pos + t)) ((v.pos + t) % PAGE_SIZE) = 0) ∧
      (∀ p j, (∀ t, t < min v.size (avail sp P v.pos) →
          p = cur_page sp (v.pos + t) → j ≠ (v.pos + t) % PAGE_SIZE) →
        w.pool p j = v.pool p j) := by
  intro fuel
  induction fuel with
  | zero =>
    intro v hs hp _ _
    have h0 : v.size = 0 := by omega
    have hn : min v.size (avail sp P v.pos) = 0 := by omega
    refine ⟨v, read_while_exit sp P cu 0 v (by simp [h0]), ?_⟩
    rw [hn]
    refine ⟨rfl, rfl, rfl, rfl, hp, ?_, ?_, ?_⟩
    · rw [List.range_zero, List.map_nil, List.append_nil]
    · intro t ht
      omega
    · intro p j _
      rfl
  | succ f ih =>
    intro v hs hp hpos hres
    have hb0 : v.pos ≤ LLONG_MAX := by omega
    by_cases hc : v.size ≠ 0 ∧ v.page ≠ P
    · obtain ⟨f1, f2, f3, f4, f5, f6, f7⟩ := read_step_fields sp v
      have hl := chunk_len_pos v.pos v.size hc.1
      have hne : cur_page sp v.pos ≠ P := by rw [← hp]; exact hc.2
      have hle := chunk_le_avail sp P v.pos v.size hP hne hb0
      have hbl : v.pos + chunk_len v.pos v.size ≤ LLONG_MAX := by omega
      have hn := avail_step sp P v.pos v.size hP hne hbl
      rw [wrap_id _ hbl] at f1
      rw [wrap_id _ (by omega)] at f3
      obtain ⟨w, hw, w1, w2, w3, w4, w5, w6, w7, w8⟩ :=
        ih (read_step sp v) (by rw [f2]; omega) f5
          (by rw [f1, f2]; omega) (by rw [f1, f2, f3]; omega)
      rw [f1, f2] at w1 w2 w3 w4 w6 w7 w8
      refine ⟨w, ?_, ?_, ?_, ?_, ?_, w5, ?_, ?_, ?_⟩
      · rw [read_while_step sp P cu f v hc (hcu _ _)]
        exact hw
      · rw [w1, hn]; omega
      · rw [w2, hn]; omega
      · rw [w3, f3, hn]; omega
      · rw [w4, f4, hn]; omega
      · rw [w6, f7, f6, hn, List.range_add, List.map_append, List.map_map,
          page_slice_stream sp v hp hbl, List.append_assoc]
        congr 2
        apply List.map_congr_left
        intro t ht
        rw [List.mem_range] at ht
        have hno := no_overlap sp P v.pos v.size (chunk_len v.pos v.size + t) (by omega)
          (by rw [hn]; omega) (by omega)
        rw [← hp] at hno
        rw [Function.comp_apply, stream_byte_def, stream_byte_def, memset_zero_apply,
          Nat.add_assoc, if_neg hno]
      · intro t ht
        rw [hn] at ht
        by_cases hlt : t < chunk_len v.pos v.size
        · obtain ⟨s1, s2⟩ := same_page sp v.pos v.size t hlt (by omega)
          by_cases hex : ∃ u, u < min (v.size - chunk_len v.pos v.size)
              (avail sp P (v.pos + chunk_len v.pos v.size)) ∧
              cur_page sp (v.pos + t) = cur_page sp (v.pos + chunk_len v.pos v.size + u) ∧
              (v.pos + t) % PAGE_SIZE = (v.pos + chunk_len v.pos v.size + u) % PAGE_SIZE
          · obtain ⟨u, hu, e1, e2⟩ := hex
            rw [e1, e2]
            exact w7 u hu
          · rw [w8 _ _ (fun u hu e1 e2 => hex ⟨u, hu, e1, e2⟩), f6, memset_zero_apply,
              if_pos ⟨by rw [s1, hp], by rw [s2]; omega, by rw [s2]; omega⟩]
        · have e : v.pos + t = v.pos + chunk_len v.pos v.size + (t - chunk_len v.pos v.size) := by
            omega
          rw [e]
          exact w7 _ (by omega)
      · intro p j h
        rw [w8 p j (fun u hu e1 e2 => h (chunk_len v.pos v.size + u) (by rw [hn]; omega)
          (by rw [← Nat.add_assoc]; exact e1) (by rw [← Nat.add_assoc]; exact e2)),
          f6, memset_zero_apply]
        apply if_neg
        intro hin
        obtain ⟨hin1, hin2, hin3⟩ := hin
        obtain ⟨s1, s2⟩ := same_page sp v.pos v.size (j - v.pos % PAGE_SIZE) (by omega)
          (by omega)
        exact h (j - v.pos % PAGE_SIZE) (by rw [hn]; omega) (by rw [s1, hin1, hp])
          (by rw [s2]; omega)
    · have hn : min v.size (avail sp P v.pos) = 0 := by
        by_cases h0 : v.size = 0
        · omega
        · have hpg : cur_page sp v.pos = P := by
            rw [← hp]
            by_contra hne
            exact hc ⟨h0, hne⟩
          rw [avail_at_producer sp P v.pos hb0 hpg]
          omega
      refine ⟨v, read_while_exit sp P cu (f + 1) v hc, ?_⟩
      rw [hn]
      refine ⟨rfl, rfl, rfl, rfl, hp, ?_, ?_, ?_⟩
      · rw [List.range_zero, List.map_nil, List.append_nil]
      · intro t ht
        omega
      · intro p j _
        rfl

/-- A pass through `retry` whose loop ends without fault and does not go back
to `retry` returns `result`. -/
theorem read_retry_done (nb : Bool) (sp : Nat) (cu : Nat → Nat → Nat) (gp : Nat → Nat)
    (fuel n : Nat) (v w : ReadVars)
    (hw : read_while sp (producer_page (gp n)) cu v.size v = some (LoopExit.done w))
    (h1 : ¬ (v.page = producer_page (gp n) ∧ nb = true))
    (h2 : ¬ (w.size ≠ 0 ∧ nb = false)) :
    read_retry nb sp cu gp (fuel + 1) n v =
      some { ret := to_s64 w.result, pos := w.pos, pool := w.pool, user := w.user } := by
  rw [read_retry]
  simp only [h1, if_false, hw, h2]

theorem span_arith (sp m P : Nat) (hm1 : 1 ≤ m) (hm : m < 16384)
    (hP : P = ((sp + 0 / 4096) % 16384 + m) % 16384) :
    min (m * 4096) (((P + 16384 - (sp + 0 / 4096) % 16384) % 16384) * 4096 - 0 % 4096)
      = m * 4096 ∧ P < 16384 ∧ P ≠ (sp + 0 / 4096) % 16384 := by
  omega

theorem page_of_arith (sp i j : Nat) (hj : j < 4096) :
    (sp + (0 + (i * 4096 + j)) / 4096) % 16384 = ((sp + 0 / 4096) % 16384 + i) % 16384 ∧
    (0 + (i * 4096 + j)) % 4096 = j := by
  omega

theorem zero_le_llong_max : 0 ≤ LLONG_MAX := Nat.zero_le _

/-- A request of `m` whole pages from `pos = 0` with the producer `m` pages ahead
takes all `m` pages. -/
theorem span_pages (sp m P : Nat) (hm1 : 1 ≤ m) (hm : m < VBI_DMA_PAGES)
    (hP : P = (cur_page sp 0 + m) % VBI_DMA_PAGES) :
    min (m * PAGE_SIZE) (avail sp P 0) = m * PAGE_SIZE ∧ P < VBI_DMA_PAGES ∧
      P ≠ cur_page sp 0 := by
  rw [cur_page_eq sp 0 zero_le_llong_max, VBI_DMA_PAGES_eq] at hP
  rw [VBI_DMA_PAGES_eq] at hm
  rw [avail_eq sp P 0 zero_le_llong_max, cur_page_eq sp 0 zero_le_llong_max, PAGE_SIZE_eq,
    VBI_DMA_PAGES_eq]
  exact span_arith sp m P hm1 hm hP

theorem pages_le_llong_max (i j : Nat) (hi : i < VBI_DMA_PAGES) (hj : j < PAGE_SIZE) :
    0 + (i * PAGE_SIZE + j) ≤ LLONG_MAX := by
  rw [VBI_DMA_PAGES_eq] at hi
  rw [PAGE_SIZE_eq] at hj ⊢
  unfold LLONG_MAX
  omega

/-- Byte `j` of the `i`-th page after the start of the stream. -/
theorem page_of (sp i j : Nat) (hi : i < VBI_DMA_PAGES) (hj : j < PAGE_SIZE) :
    cur_page sp (0 + (i * PAGE_SIZE + j)) = (cur_page sp 0 + i) % VBI_DMA_PAGES ∧
    (0 + (i * PAGE_SIZE + j)) % PAGE_SIZE = j := by
  rw [cur_page_eq sp _ (pages_le_llong_max i j hi hj), cur_page_eq sp 0 zero_le_llong_max,
    PAGE_SIZE_eq, VBI_DMA_PAGES_eq]
  rw [PAGE_SIZE_eq] at hj
  exact page_of_arith sp i j hj

theorem index_split (m t : Nat) (ht : t < m * PAGE_SIZE) :
    t / PAGE_SIZE < m ∧ t % PAGE_SIZE < PAGE_SIZE ∧
      t = t / PAGE_SIZE * PAGE_SIZE + t % PAGE_SIZE := by
  rw [PAGE_SIZE_eq] at ht ⊢
  omega

theorem index_join (m i j : Nat) (hi : i < m) (hj : j < PAGE_SIZE) :
    i * PAGE_SIZE + j < m * PAGE_SIZE := by
  rw [PAGE_SIZE_eq] at hj ⊢
  omega

theorem span_le_llong_max (m : Nat) (hm : m < VBI_DMA_PAGES) : 0 + m * PAGE_SIZE ≤ LLONG_MAX := by
  rw [VBI_DMA_PAGES_eq] at hm
  rw [PAGE_SIZE_eq]
  unfold LLONG_MAX
  omega

/-- C1: with `*pos = 0`, current page `k`, and the producer page `m` pages ahead
(`1 ≤ m < N`), a read of `m * PAGE_SIZE` bytes whose copies succeed returns
`m * PAGE_SIZE`, delivers pages `k, k+1, ..., k+m-1` (mod `N`) in that order,
leaves those pages zero and every other page as it was. -/
theorem read_round_trip (fuel : Nat) (nonblock : Bool) (start_page m : Nat)
    (copy_to_user : Nat → Nat → Nat) (gpcnt : Nat → Nat) (pool : Pool)
    (hm1 : 1 ≤ m) (hm : m < VBI_DMA_PAGES)
    (hP : producer_page (gpcnt 0) = (cur_page start_page 0 + m) % VBI_DMA_PAGES)
    (hcu : ∀ b l, copy_to_user b l = 0) :
    ∃ out, cx88sdr_read (fuel + 1) nonblock start_page copy_to_user gpcnt pool
        (m * PAGE_SIZE) 0 = some out ∧
      out.ret = ((m * PAGE_SIZE : Nat) : Int) ∧
      out.pos = m * PAGE_SIZE ∧
      out.user.length = m * PAGE_SIZE ∧
      (∀ i j, i < m → j < PAGE_SIZE →
        out.user[i * PAGE_SIZE + j]? =
          some (pool ((cur_page start_page 0 + i) % VBI_DMA_PAGES) j)) ∧
      (∀ i j, i < m → j < PAGE_SIZE →
        out.pool ((cur_page start_page 0 + i) % VBI_DMA_PAGES) j = 0) ∧
      (∀ p, (∀ i, i < m → p ≠ (cur_page start_page 0 + i) % VBI_DMA_PAGES) →
        ∀ j, out.pool p j = pool p j) := by
  obtain ⟨hmin, hlt, hne⟩ := span_pages start_page m (producer_page (gpcnt 0)) hm1 hm hP
  have hspan := span_le_llong_max m hm
  obtain ⟨w, hw, w1, w2, w3, _, _, w6, w7, w8⟩ :=
    read_while_spec start_page (producer_page (gpcnt 0)) copy_to_user hcu hlt (m * PAGE_SIZE)
      (read_init start_page pool (m * PAGE_SIZE) 0) (Nat.le_refl _) rfl
      (by
        show 0 + min (m * PAGE_SIZE) (avail start_page (producer_page (gpcnt 0)) 0) ≤ LLONG_MAX
        rw [hmin]; exact hspan)
      (by
        show 0 + min (m * PAGE_SIZE) (avail start_page (producer_page (gpcnt 0)) 0) ≤ LLONG_MAX
        rw [hmin]; exact hspan)
  have v1 : (read_init start_page pool (m * PAGE_SIZE) 0).size = m * PAGE_SIZE := rfl
  have v2 : (read_init start_page pool (m * PAGE_SIZE) 0).pos = 0 := rfl
  have v3 : (read_init start_page pool (m * PAGE_SIZE) 0).result = 0 := rfl
  have v4 : (read_init start_page pool (m * PAGE_SIZE) 0).user = [] := rfl
  have v5 : (read_init start_page pool (m * PAGE_SIZE) 0).pool = pool := rfl
  have v6 : (read_init start_page pool (m * PAGE_SIZE) 0).page = cur_page start_page 0 := rfl
  rw [v1, v2, hmin] at w1 w2 w3 w6 w7 w8
  rw [v3] at w3
  rw [v4, v5, List.nil_append] at w6
  rw [v5] at w8
  rw [Nat.zero_add] at w1 w3
  rw [Nat.sub_self] at w2
  rw [Nat.zero_add] at hspan
  have hret : to_s64 w.result = ((m * PAGE_SIZE : Nat) : Int) := by
    rw [w3, to_s64_of_le _ hspan]
  refine ⟨{ ret := to_s64 w.result, pos := w.pos, pool := w.pool, user := w.user }, ?_,
    hret, w1, ?_, ?_, ?_, ?_⟩
  · exact read_retry_done nonblock start_page copy_to_user gpcnt fuel 0
      (read_init start_page pool (m * PAGE_SIZE) 0) w hw
      (fun h => hne (h.1.symm.trans v6)) (fun h => h.1 w2)
  · show w.user.length = m * PAGE_SIZE
    rw [w6, List.length_map, List.length_range]
  · intro i j hi hj
    show w.user[i * PAGE_SIZE + j]? = _
    obtain ⟨p1, p2⟩ := page_of start_page i j (Nat.lt_trans hi hm) hj
    rw [w6, List.getElem?_map, List.getElem?_range (index_join m i j hi hj), Option.map_some',
      stream_byte_def, p1, p2]
  · intro i j hi hj
    obtain ⟨p1, p2⟩ := page_of start_page i j (Nat.lt_trans hi hm) hj
    have h := w7 (i * PAGE_SIZE + j) (index_join m i j hi hj)
    rw [p1, p2] at h
    exact h
  · intro p hp j
    refine w8 p j (fun t ht hpt => ?_)
    obtain ⟨s1, s2, s3⟩ := index_split m t ht
    obtain ⟨p1, _⟩ := page_of start_page (t / PAGE_SIZE) (t % PAGE_SIZE) (Nat.lt_trans s1 hm) s2
    rw [← s3] at p1
    exact absurd (hpt.trans p1) (hp _ s1)

theorem read_round_trip_witness :
    1 ≤ 1 ∧ 1 < VBI_DMA_PAGES ∧
    producer_page ((fun _ => 7) 0) = (cur_page 5 0 + 1) % VBI_DMA_PAGES ∧
    ∃ out, cx88sdr_read (0 + 1) true 5 (fun _ _ => 0) (fun _ => 7) sample_pool
        (1 * PAGE_SIZE) 0 = some out ∧
      out.ret = ((1 * PAGE_SIZE : Nat) : Int) ∧
      out.pos = 1 * PAGE_SIZE ∧
      out.user.length = 1 * PAGE_SIZE ∧
      (∀ i j, i < 1 → j < PAGE_SIZE →
        out.user[i * PAGE_SIZE + j]? =
          some (sample_pool ((cur_page 5 0 + i) % VBI_DMA_PAGES) j)) ∧
      (∀ i j, i < 1 → j < PAGE_SIZE →
        out.pool ((cur_page 5 0 + i) % VBI_DMA_PAGES) j = 0) ∧
      (∀ p, (∀ i, i < 1 → p ≠ (cur_page 5 0 + i) % VBI_DMA_PAGES) →
        ∀ j, out.pool p j = sample_pool p j) :=
  ⟨by decide, by decide, by decide,
    read_round_trip 0 true 5 1 (fun _ _ => 0) (fun _ => 7) sample_pool (by decide) (by decide)
      (by decide) (fun _ _ => rfl)⟩

/-! ## Ring reader: the states of one call -/

theorem chunk_state_zero (sp : Nat) (v : ReadVars) : chunk_state sp v 0 = v := rfl

theorem chunk_state_succ (sp : Nat) (v : ReadVars) (t : Nat) :
    chunk_state sp v (t + 1) = read_step sp (chunk_state sp v t) :=
  Function.iterate_succ_apply' (read_step sp) t v

theorem chunk_state_shift (sp : Nat) (v : ReadVars) (t : Nat) :
    chunk_state sp v (t + 1) = chunk_state sp (read_step sp v) t :=
  Function.iterate_succ_apply (read_step sp) t v

theorem chunk_state_add (sp : Nat) (v : ReadVars) (s t : Nat) :
    chunk_state sp (chunk_state sp v s) t = chunk_state sp v (s + t) := by
  unfold chunk_state
  rw [Nat.add_comm s t, Function.iterate_add_apply]

/-- The state after `t` chunks, as long as `*pos` and `result` stay within
`LLONG_MAX`: some `B ≤ size` bytes have been taken, `*pos` and `result` have
advanced by `B`, `page` is the page of `*pos`, exactly the `B` stream bytes from
`*pos` on are zero in the pool and the rest of the pool is as before. -/
theorem chunk_state_spec (sp : Nat) :
    ∀ (t : Nat) (v : ReadVars), v.page = cur_page sp v.pos →
    v.pos + v.size ≤ LLONG_MAX → v.result + v.size ≤ LLONG_MAX →
    ∃ B, B ≤ v.size ∧
      (chunk_state sp v t).pos = v.pos + B ∧
      (chunk_state sp v t).size = v.size - B ∧
      (chunk_state sp v t).result = v.result + B ∧
      (chunk_state sp v t).page = cur_page sp (v.pos + B) ∧
      (∀ u, u < B →
        (chunk_state sp v t).pool (cur_page sp (v.pos + u)) ((v.pos + u) % PAGE_SIZE) = 0) ∧
      (∀ p j, (∀ u, u < B → p = cur_page sp (v.pos + u) → j ≠ (v.pos + u) % PAGE_SIZE) →
        (chunk_state sp v t).pool p j = v.pool p j) := by
  intro t
  induction t with
  | zero =>
    intro v hp _ _
    refine ⟨0, Nat.zero_le _, rfl, rfl, rfl, hp, ?_, ?_⟩
    · intro u hu
      omega
    · intro p j _
      rfl
  | succ t ih =>
    intro v hp hpos hres
    obtain ⟨f1, f2, f3, _, f5, f6, _⟩ := read_step_fields sp v
    have hl := chunk_len_le v.pos v.size
    have hfit := chunk_len_fits v.pos v.size
    rw [wrap_id _ (by omega)] at f1
    rw [wrap_id _ (by omega)] at f3
    obtain ⟨B, hB, w1, w2, w3, w5, w7, w8⟩ :=
      ih (read_step sp v) f5 (by rw [f1, f2]; omega) (by rw [f2, f3]; omega)
    rw [f1] at w1 w5 w7 w8
    rw [f2] at w2 hB
    rw [f3] at w3
    rw [chunk_state_shift]
    refine ⟨chunk_len v.pos v.size + B, by omega, ?_, ?_, ?_, ?_, ?_, ?_⟩
    · rw [w1]; omega
    · rw [w2]; omega
    · rw [w3]; omega
    · rw [w5, Nat.add_assoc]
    · intro u hu
      by_cases hlt : u < chunk_len v.pos v.size
      · obtain ⟨s1, s2⟩ := same_page sp v.pos v.size u hlt (by omega)
        by_cases hex : ∃ x, x < B ∧
            cur_page sp (v.pos + u) = cur_page sp (v.pos + chunk_len v.pos v.size + x) ∧
            (v.pos + u) % PAGE_SIZE = (v.pos + chunk_len v.pos v.size + x) % PAGE_SIZE
        · obtain ⟨x, hx, e1, e2⟩ := hex
          rw [e1, e2]
          exact w7 x hx
        · rw [w8 _ _ (fun x hx e1 e2 => hex ⟨x, hx, e1, e2⟩), f6, memset_zero_apply,
            if_pos ⟨by rw [s1, hp], by rw [s2]; omega, by rw [s2]; omega⟩]
      · have e : v.pos + u = v.pos + chunk_len v.pos v.size + (u - chunk_len v.pos v.size) := by
          omega
        rw [e]
        exact w7 _ (by omega)
    · intro p j h
      rw [w8 p j (fun x hx e1 e2 => h (chunk_len v.pos v.size + x) (by omega)
        (by rw [← Nat.add_assoc]; exact e1) (by rw [← Nat.add_assoc]; exact e2)),
        f6, memset_zero_apply]
      apply if_neg
      intro hin
      obtain ⟨hin1, hin2, hin3⟩ := hin
      obtain ⟨s1, s2⟩ := same_page sp v.pos v.size (j - v.pos % PAGE_SIZE) (by omega)
        (by omega)
      exact h (j - v.pos % PAGE_SIZE) (by omega) (by rw [s1, hin1, hp])
        (by rw [s2]; omega)

/-- A loop that ends without fault has copied some number of chunks. -/
theorem read_while_done_state (sp P : Nat) (cu : Nat → Nat → Nat) :
    ∀ (fuel : Nat) (v w : ReadVars), read_while sp P cu fuel v = some (LoopExit.done w) →
    ∃ t, w = chunk_state sp v t := by
  intro fuel
  induction fuel with
  | zero =>
    intro v w h
    by_cases hc : v.size ≠ 0 ∧ v.page ≠ P
    · rw [read_while, if_pos hc] at h
      exact Option.noConfusion h
    · rw [read_while_exit sp P cu 0 v hc] at h
      exact ⟨0, (LoopExit.done.inj (Option.some.inj h)).symm⟩
  | succ f ih =>
    intro v w h
    by_cases hc : v.size ≠ 0 ∧ v.page ≠ P
    · by_cases hcu : cu v.buf (chunk_len v.pos v.size) = 0
      · rw [read_while_step sp P cu f v hc hcu] at h
        obtain ⟨t, ht⟩ := ih (read_step sp v) w h
        exact ⟨t + 1, by rw [chunk_state_shift]; exact ht⟩
      · rw [read_while_fault sp P cu f v hc hcu] at h
        exact LoopExit.noConfusion (Option.some.inj h)
    · rw [read_while_exit sp P cu (f + 1) v hc] at h
      exact ⟨0, (LoopExit.done.inj (Option.some.inj h)).symm⟩

/-- The locals at every arrival at `retry` are those after some number of chunks. -/
theorem at_retry_state (nb : Bool) (sp : Nat) (cu : Nat → Nat → Nat) (gp : Nat → Nat)
    (v0 : ReadVars) (n : Nat) (v : ReadVars) (h : AtRetry nb sp cu gp v0 n v) :
    ∃ t, v = chunk_state sp v0 t := by
  induction h with
  | first => exact ⟨0, rfl⟩
  | again n v w _ _ hw _ ih =>
    obtain ⟨t, ht⟩ := ih
    obtain ⟨s, hs⟩ := read_while_done_state sp (producer_page (gp n)) cu v.size v w hw
    exact ⟨t + s, by rw [hs, ht, chunk_state_add]⟩

/-- A call that arrives at `retry` for the `n`-th time with the locals `v`
returns what the passes from there on return. -/
theorem at_retry_run (nb : Bool) (sp : Nat) (cu : Nat → Nat → Nat) (gp : Nat → Nat)
    (v0 : ReadVars) (n : Nat) (v : ReadVars) (h : AtRetry nb sp cu gp v0 n v) :
    ∀ f, read_retry nb sp cu gp (f + n) 0 v0 = read_retry nb sp cu gp f n v := by
  induction h with
  | first =>
    intro f
    rfl
  | again n v w _ h1 hw h2 ih =>
    intro f
    have e : f + (n + 1) = f + 1 + n := by omega
    rw [e, ih (f + 1), read_retry]
    simp only [h1, if_false, hw]
    rw [if_pos h2]

/-- The loop is left with a fault at the first chunk whose copy fails. -/
theorem read_while_reaches_fault (sp P : Nat) (cu : Nat → Nat → Nat) :
    ∀ (j : Nat) (v : ReadVars) (fuel : Nat), v.size ≤ fuel →
    (∀ s, s ≤ j → (chunk_state sp v s).size ≠ 0 ∧ (chunk_state sp v s).page ≠ P) →
    (∀ s, s < j → cu (chunk_state sp v s).buf
        (chunk_len (chunk_state sp v s).pos (chunk_state sp v s).size) = 0) →
    cu (chunk_state sp v j).buf
        (chunk_len (chunk_state sp v j).pos (chunk_state sp v j).size) ≠ 0 →
    ∃ w, read_while sp P cu fuel v = some (LoopExit.fault w) ∧
      w.pos = (chunk_state sp v j).pos ∧ w.result = (chunk_state sp v j).result ∧
      w.pool = (chunk_state sp v j).pool := by
  intro j
  induction j with
  | zero =>
    intro v fuel hf hl _ hfail
    have h0 := hl 0 (Nat.le_refl _)
    rw [chunk_state_zero] at h0 hfail
    cases fuel with
    | zero => exact absurd (Nat.le_zero.mp hf) h0.1
    | succ f =>
      exact ⟨_, read_while_fault sp P cu f v h0 hfail, rfl, rfl, rfl⟩
  | succ j ih =>
    intro v fuel hf hl hok hfail
    have h0 := hl 0 (Nat.zero_le _)
    have c0 := hok 0 (Nat.succ_pos _)
    rw [chunk_state_zero] at h0 c0
    obtain ⟨l1, l2, _⟩ := chunk_len_pos v.pos v.size h0.1
    obtain ⟨_, f2, _, _, _, _, _⟩ := read_step_fields sp v
    cases fuel with
    | zero => exact absurd (Nat.le_zero.mp hf) h0.1
    | succ f =>
      have hf2 : (read_step sp v).size ≤ f := by rw [f2]; omega
      have hl2 : ∀ s, s ≤ j → (chunk_state sp (read_step sp v) s).size ≠ 0 ∧
          (chunk_state sp (read_step sp v) s).page ≠ P := by
        intro s hs
        rw [← chunk_state_shift]
        exact hl (s + 1) (Nat.succ_le_succ hs)
      have hok2 : ∀ s, s < j → cu (chunk_state sp (read_step sp v) s).buf
          (chunk_len (chunk_state sp (read_step sp v) s).pos
            (chunk_state sp (read_step sp v) s).size) = 0 := by
        intro s hs
        rw [← chunk_state_shift]
        exact hok (s + 1) (Nat.succ_lt_succ hs)
      rw [chunk_state_shift] at hfail
      obtain ⟨w, hw, w1, w2, w3⟩ := ih (read_step sp v) f hf2 hl2 hok2 hfail
      refine ⟨w, ?_, ?_, ?_, ?_⟩
      · rw [read_while_step sp P cu f v h0 c0]; exact hw
      · rw [chunk_state_shift]; exact w1
      · rw [chunk_state_shift]; exact w2
      · rw [chunk_state_shift]; exact w3

/-- A pass through `retry` whose loop is left by a failed copy returns `-EFAULT`. -/
theorem read_retry_fault (nb : Bool) (sp : Nat) (cu : Nat → Nat → Nat) (gp : Nat → Nat)
    (fuel n : Nat) (v w : ReadVars)
    (hw : read_while sp (producer_page (gp n)) cu v.size v = some (LoopExit.fault w))
    (h1 : ¬ (v.page = producer_page (gp n) ∧ nb = true)) :
    read_retry nb sp cu gp (fuel + 1) n v =
      some { ret := -EFAULT, pos := w.pos, pool := w.pool, user := w.user } := by
  rw [read_retry]
  simp only [h1, if_false, hw]

theorem efault_ne_count (r : Nat) : -EFAULT ≠ (r : Int) := by
  unfold EFAULT
  omega

/-- C4 (as the code has it): when a call has arrived at `retry` (for the first
time or after `goto retry`) and in that pass the copy of chunk `j` fails after
chunks `0 .. j-1` were copied, `cx88sdr_read` returns `-EFAULT`, which is not a
byte count.  When the request does not take `*pos` beyond `LLONG_MAX`, the
number `B` of bytes copied by the call before the failure (the value of `result`
at that point) is less than `size`, `*pos` has advanced by `B`, exactly those
`B` stream bytes are zero in the pool and the rest of the pool is as it was. -/
theorem read_fault_returns_efault (fuel : Nat) (nonblock : Bool) (start_page size pos n j : Nat)
    (copy_to_user : Nat → Nat → Nat) (gpcnt : Nat → Nat) (pool : Pool) (v : ReadVars)
    (hat : AtRetry nonblock start_page copy_to_user gpcnt
      (read_init start_page pool size pos) n v)
    (hloop : ∀ s, s ≤ j →
      (chunk_state start_page v s).size ≠ 0 ∧
      (chunk_state start_page v s).page ≠ producer_page (gpcnt n))
    (hok : ∀ s, s < j →
      copy_to_user (chunk_state start_page v s).buf
        (chunk_len (chunk_state start_page v s).pos (chunk_state start_page v s).size) = 0)
    (hfail :
      copy_to_user (chunk_state start_page v j).buf
        (chunk_len (chunk_state start_page v j).pos (chunk_state start_page v j).size) ≠ 0) :
    ∃ out, cx88sdr_read (fuel + 1 + n) nonblock start_page copy_to_user gpcnt pool size pos
        = some out ∧
      out.ret = -EFAULT ∧
      (∀ B : Nat, out.ret ≠ (B : Int)) ∧
      (pos + size ≤ LLONG_MAX →
        ∃ B, B < size ∧
          (chunk_state start_page v j).result = B ∧
          out.pos = pos + B ∧
          (∀ u, u < B →
            out.pool (cur_page start_page (pos + u)) ((pos + u) % PAGE_SIZE) = 0) ∧
          (∀ p i, (∀ u, u < B → p = cur_page start_page (pos + u) →
              i ≠ (pos + u) % PAGE_SIZE) →
            out.pool p i = pool p i)) := by
  obtain ⟨w, hw, w1, _, w3⟩ :=
    read_while_reaches_fault start_page (producer_page (gpcnt n)) copy_to_user j v v.size
      (Nat.le_refl _) hloop hok hfail
  have hrun := at_retry_run nonblock start_page copy_to_user gpcnt
    (read_init start_page pool size pos) n v hat (fuel + 1)
  have hret := read_retry_fault nonblock start_page copy_to_user gpcnt fuel n v w hw
    (fun h => (hloop 0 (Nat.zero_le _)).2 h.1)
  refine ⟨{ ret := -EFAULT, pos := w.pos, pool := w.pool, user := w.user }, hrun.trans hret,
    rfl, efault_ne_count, ?_⟩
  intro hpos
  obtain ⟨t0, ht0⟩ := at_retry_state nonblock start_page copy_to_user gpcnt
    (read_init start_page pool size pos) n v hat
  have hsz : 0 + size ≤ LLONG_MAX := by omega
  obtain ⟨B, hB, s1, s2, s3, _, s7, s8⟩ :=
    chunk_state_spec start_page (t0 + j) (read_init start_page pool size pos) rfl hpos hsz
  rw [← chunk_state_add, ← ht0] at s1 s2 s3 s7 s8
  have hB2 : B ≤ size := hB
  have hne := (hloop j (Nat.le_refl _)).1
  have s2a : (chunk_state start_page v j).size = size - B := s2
  have s3a : (chunk_state start_page v j).result = 0 + B := s3
  refine ⟨B, by omega, by rw [s3a, Nat.zero_add], w1.trans s1, ?_, ?_⟩
  · intro u hu
    show w.pool _ _ = 0
    rw [w3]
    exact s7 u hu
  · intro p i h
    show w.pool p i = pool p i
    rw [w3]
    exact s8 p i h

theorem read_fault_returns_efault_witness :
    ∃ out, cx88sdr_read (0 + 1 + 1) false 5 copy_first_byte_only (fun n => 7 + n) sample_pool
        2 4095 = some out ∧
      out.ret = -EFAULT ∧
      (∀ B : Nat, out.ret ≠ (B : Int)) ∧
      (4095 + 2 ≤ LLONG_MAX →
        ∃ B, B < 2 ∧
          (chunk_state 5 (read_step 5 (read_init 5 sample_pool 2 4095)) 0).result = B ∧
          out.pos = 4095 + B ∧
          (∀ u, u < B →
            out.pool (cur_page 5 (4095 + u)) ((4095 + u) % PAGE_SIZE) = 0) ∧
          (∀ p i, (∀ u, u < B → p = cur_page 5 (4095 + u) →
              i ≠ (4095 + u) % PAGE_SIZE) →
            out.pool p i = sample_pool p i)) :=
  read_fault_returns_efault 0 false 5 2 4095 1 0 copy_first_byte_only (fun n => 7 + n)
    sample_pool (read_step 5 (read_init 5 sample_pool 2 4095))
    (AtRetry.again 0 (read_init 5 sample_pool 2 4095)
      (read_step 5 (read_init 5 sample_pool 2 4095)) AtRetry.first
      (fun h => Bool.noConfusion h.2) rfl ⟨by decide, rfl⟩)
    (fun s hs => by
      have h : s = 0 := by omega
      subst h; decide)
    (fun s hs => absurd hs (Nat.not_lt_zero s))
    (by decide)

/-- C4 (counterexample): a two-byte read at `*pos = 4095` into a buffer of which
only the first byte is writable copies one byte, then fails on the second chunk;
the call returns `-EFAULT` and not 1, the number of bytes already copied, while
`*pos` has advanced by that byte. -/
theorem read_fault_hides_copied_bytes :
    ∃ out, cx88sdr_read 1 true 5 copy_first_byte_only (fun _ => 9) sample_pool 2 4095
        = some out ∧
      out.ret = -EFAULT ∧ out.ret ≠ 1 ∧ out.pos = 4096 ∧ out.user = [sample_pool 5 4095] :=
  ⟨_, rfl, rfl, by decide, rfl, rfl⟩

/-! ## The counter rule in open and read -/

theorem risc_write_lo_tags :
    risc_write_lo.testBit 24 = false ∧ (risc_write_lo >>> 16) &&& 3 = 0 := by
  decide

theorem risc_write_hi_tags (i irqt : Nat) :
    (risc_write_hi i irqt).testBit 24 = decide (irqt = 0) ∧
    (risc_write_hi i irqt >>> 16) &&& 3 = if i < VBI_DMA_PAGES - 1 then 1 else 3 := by
  unfold risc_write_hi
  by_cases h1 : irqt = 0 <;> by_cases h2 : i < VBI_DMA_PAGES - 1
  · rw [if_pos h1, if_pos h2, decide_eq_true h1]; decide
  · rw [if_pos h1, if_neg h2, decide_eq_true h1]; decide
  · rw [if_neg h1, if_pos h2, decide_eq_false h1]; decide
  · rw [if_neg h1, if_neg h2, decide_eq_false h1]; decide

/-- The two write instructions of page `i`, by their index in the program. -/
theorem risc_prog_writes (phy : Nat) (pg : Nat → Nat) (i : Nat) (hi : i < VBI_DMA_PAGES) :
    (cx88sdr_make_risc_instructions phy pg)[1 + 4 * i]? = some risc_write_lo ∧
    (cx88sdr_make_risc_instructions phy pg)[3 + 4 * i]? =
      some (risc_write_hi i ((i + 1) % 512)) := by
  have hN : VBI_DMA_PAGES = 16384 := VBI_DMA_PAGES_eq
  obtain ⟨h0, _, h2, _⟩ := risc_loop_get pg VBI_DMA_PAGES 0 0 i hi
  rw [Nat.zero_add] at h2
  constructor
  · have e : 1 + 4 * i = 4 * i + 1 := by omega
    exact (congrArg (fun k => (cx88sdr_make_risc_instructions phy pg)[k]?) e).trans
      ((risc_prog_body phy pg (4 * i) (by omega)).trans h0)
  · have e : 3 + 4 * i = 4 * i + 2 + 1 := by omega
    exact (congrArg (fun k => (cx88sdr_make_risc_instructions phy pg)[k]?) e).trans
      ((risc_prog_body phy pg (4 * i + 2) (by omega)).trans h2)

/-- The `k`-th instruction word of the program, `k < 2 N`: the first write of
page `k / 2` when `k` is even, the second when `k` is odd. -/
theorem risc_prog_instr (phy : Nat) (pg : Nat → Nat) (k : Nat) (hk : k < 2 * VBI_DMA_PAGES) :
    (cx88sdr_make_risc_instructions phy pg)[1 + 2 * k]? =
      some (if k % 2 = 0 then risc_write_lo else risc_write_hi (k / 2) ((k / 2 + 1) % 512)) := by
  obtain ⟨h1, h2⟩ := risc_prog_writes phy pg (k / 2) (by omega)
  by_cases h : k % 2 = 0
  · have e : 1 + 2 * k = 1 + 4 * (k / 2) := by omega
    rw [if_pos h]
    exact (congrArg (fun k => (cx88sdr_make_risc_instructions phy pg)[k]?) e).trans h1
  · have e : 1 + 2 * k = 3 + 4 * (k / 2) := by omega
    rw [if_neg h]
    exact (congrArg (fun k => (cx88sdr_make_risc_instructions phy pg)[k]?) e).trans h2

theorem count_congr_below (p q : Nat → Prop) [DecidablePred p] [DecidablePred q] (n : Nat)
    (h : ∀ k, k < n → (p k ↔ q k)) : Nat.count p n = Nat.count q n := by
  induction n with
  | zero => rfl
  | succ n ih =>
    rw [Nat.count_succ, Nat.count_succ, ih (fun k hk => h k (Nat.lt_succ_of_lt hk))]
    by_cases hq : q n
    · rw [if_pos hq, if_pos ((h n (Nat.lt_succ_self n)).mpr hq)]
    · rw [if_neg hq, if_neg (fun hp => hq ((h n (Nat.lt_succ_self n)).mp hp))]

theorem irq_index_arith (k : Nat) :
    (k % 2 ≠ 0 ∧ (k / 2 + 1) % 512 = 0) ↔ k % 1024 = 1023 % 1024 := by
  omega

/-- C13: the second write instruction of page `i` requests an interrupt (bit 24)
exactly when `(i + 1) mod 0x200 = 0`, the first write instruction of a page
never does, so that `N / 0x200 = 32` of the `2 N` write instructions request an
interrupt, the first of them on page 511. -/
theorem risc_irq_markers (phy : Nat) (pg : Nat → Nat) :
    (∀ i : Fin VBI_DMA_PAGES, ∃ w1 w2,
      (cx88sdr_make_risc_instructions phy pg)[1 + 4 * i.val]? = some w1 ∧
      (cx88sdr_make_risc_instructions phy pg)[3 + 4 * i.val]? = some w2 ∧
      w1.testBit 24 = false ∧
      (w2.testBit 24 = true ↔ (i.val + 1) % 0x200 = 0)) ∧
    Nat.count (fun k => (((cx88sdr_make_risc_instructions phy pg)[1 + 2 * k]?).getD 0).testBit 24
      = true) (2 * VBI_DMA_PAGES) = VBI_DMA_PAGES / 0x200 ∧
    VBI_DMA_PAGES / 0x200 = 32 ∧
    (∀ i : Fin 511, ∃ w2,
      (cx88sdr_make_risc_instructions phy pg)[3 + 4 * i.val]? = some w2 ∧
      w2.testBit 24 = false) ∧
    (∃ w2, (cx88sdr_make_risc_instructions phy pg)[3 + 4 * 511]? = some w2 ∧
      w2.testBit 24 = true) := by
  have hN : VBI_DMA_PAGES = 16384 := VBI_DMA_PAGES_eq
  refine ⟨?_, ?_, by decide, ?_, ?_⟩
  · intro i
    obtain ⟨h1, h2⟩ := risc_prog_writes phy pg i.val i.isLt
    refine ⟨_, _, h1, h2, risc_write_lo_tags.1, ?_⟩
    rw [(risc_write_hi_tags _ _).1, decide_eq_true_iff]
  · have hc : Nat.count (fun k =>
        (((cx88sdr_make_risc_instructions phy pg)[1 + 2 * k]?).getD 0).testBit 24 = true)
        (2 * VBI_DMA_PAGES) = Nat.count (fun k => k ≡ 1023 [MOD 1024]) (2 * VBI_DMA_PAGES) := by
      apply count_congr_below
      intro k hk
      show (((cx88sdr_make_risc_instructions phy pg)[1 + 2 * k]?).getD 0).testBit 24 = true ↔
        k % 1024 = 1023 % 1024
      rw [risc_prog_instr phy pg k hk, Option.getD_some, ← irq_index_arith]
      by_cases h : k % 2 = 0
      · rw [if_pos h, risc_write_lo_tags.1]
        exact ⟨fun hf => Bool.noConfusion hf, fun hf => absurd h hf.1⟩
      · rw [if_neg h, (risc_write_hi_tags _ _).1, decide_eq_true_iff]
        exact ⟨fun hf => ⟨h, hf⟩, fun hf => hf.2⟩
    rw [hc, hN, Nat.count_modEq_card (2 * 16384) (by decide : 0 < 1024) 1023]
    decide
  · intro i
    have hi := i.isLt
    obtain ⟨_, h2⟩ := risc_prog_writes phy pg i.val (by omega)
    refine ⟨_, h2, ?_⟩
    rw [(risc_write_hi_tags _ _).1, decide_eq_false_iff_not]
    omega
  · obtain ⟨_, h2⟩ := risc_prog_writes phy pg 511 (by decide)
    refine ⟨_, h2, ?_⟩
    rw [(risc_write_hi_tags _ _).1]
    decide

/-- C14: of the `2 N` write instructions only the second write of page `N - 1`
carries the tag 3 in bits 16-17; the second write of every other page carries 1
and first writes carry 0.  The tagged instruction is followed by the last two
words of the program, `RISC_JUMP` and the bus address of word 1, which is the
first write instruction of page 0. -/
theorem risc_loop_closure (phy : Nat) (pg : Nat → Nat) (hphy : phy + 4 < U32) :
    (∀ i : Fin VBI_DMA_PAGES, ∃ w1 w2,
      (cx88sdr_make_risc_instructions phy pg)[1 + 4 * i.val]? = some w1 ∧
      (cx88sdr_make_risc_instructions phy pg)[3 + 4 * i.val]? = some w2 ∧
      (w1 >>> 16) &&& 3 = 0 ∧
      (w2 >>> 16) &&& 3 = if i.val = VBI_DMA_PAGES - 1 then 3 else 1) ∧
    (∀ k : Fin (2 * VBI_DMA_PAGES),
      ((((cx88sdr_make_risc_instructions phy pg)[1 + 2 * k.val]?).getD 0) >>> 16) &&& 3 = 3 ↔
        k.val = 2 * (VBI_DMA_PAGES - 1) + 1) ∧
    (cx88sdr_make_risc_instructions phy pg)[3 + 4 * (VBI_DMA_PAGES - 1) + 2]? = some RISC_JUMP ∧
    (cx88sdr_make_risc_instructions phy pg)[3 + 4 * (VBI_DMA_PAGES - 1) + 3]? =
      some (phy + 4 * 1) ∧
    (cx88sdr_make_risc_instructions phy pg).length = 3 + 4 * (VBI_DMA_PAGES - 1) + 4 ∧
    (cx88sdr_make_risc_instructions phy pg)[1]? = some risc_write_lo := by
  have hN : VBI_DMA_PAGES = 16384 := VBI_DMA_PAGES_eq
  obtain ⟨t1, t2⟩ := risc_prog_tail phy pg
  refine ⟨?_, ?_, ?_, ?_, ?_, ?_⟩
  · intro i
    have hi := i.isLt
    obtain ⟨h1, h2⟩ := risc_prog_writes phy pg i.val hi
    refine ⟨_, _, h1, h2, risc_write_lo_tags.2, ?_⟩
    rw [(risc_write_hi_tags _ _).2]
    by_cases h : i.val = VBI_DMA_PAGES - 1
    · rw [if_pos h, if_neg (by omega)]
    · rw [if_neg h, if_pos (by omega)]
  · intro k
    have hk := k.isLt
    rw [risc_prog_instr phy pg k.val hk, Option.getD_some]
    by_cases h : k.val % 2 = 0
    · rw [if_pos h, risc_write_lo_tags.2]
      exact ⟨fun hf => absurd hf (by decide), fun hf => by omega⟩
    · rw [if_neg h, (risc_write_hi_tags _ _).2]
      by_cases h2 : k.val / 2 < VBI_DMA_PAGES - 1
      · rw [if_pos h2]
        exact ⟨fun hf => absurd hf (by decide), fun hf => by omega⟩
      · rw [if_neg h2]
        exact ⟨fun _ => by omega, fun _ => rfl⟩
  · have e : 3 + 4 * (VBI_DMA_PAGES - 1) + 2 = 4 * VBI_DMA_PAGES + 1 := by omega
    exact (congrArg (fun k => (cx88sdr_make_risc_instructions phy pg)[k]?) e).trans t1
  · have e : 3 + 4 * (VBI_DMA_PAGES - 1) + 3 = 4 * VBI_DMA_PAGES + 1 + 1 := by omega
    have a : (phy + 4) % U32 = phy + 4 * 1 := Nat.mod_eq_of_lt hphy
    exact (congrArg (fun k => (cx88sdr_make_risc_instructions phy pg)[k]?) e).trans
      (t2.trans (congrArg some a))
  · rw [risc_prog_length]
    omega
  · exact (risc_prog_writes phy pg 0 (by decide)).1

theorem risc_loop_closure_witness :
    0x1000 + 4 < U32 ∧
    (∀ i : Fin VBI_DMA_PAGES, ∃ w1 w2,
      (cx88sdr_make_risc_instructions 0x1000 (fun i => 0x100000 + 4096 * i))[1 + 4 * i.val]?
        = some w1 ∧
      (cx88sdr_make_risc_instructions 0x1000 (fun i => 0x100000 + 4096 * i))[3 + 4 * i.val]?
        = some w2 ∧
      (w1 >>> 16) &&& 3 = 0 ∧
      (w2 >>> 16) &&& 3 = if i.val = VBI_DMA_PAGES - 1 then 3 else 1) ∧
    (∀ k : Fin (2 * VBI_DMA_PAGES),
      ((((cx88sdr_make_risc_instructions 0x1000
          (fun i => 0x100000 + 4096 * i))[1 + 2 * k.val]?).getD 0) >>> 16) &&& 3 = 3 ↔
        k.val = 2 * (VBI_DMA_PAGES - 1) + 1) ∧
    (cx88sdr_make_risc_instructions 0x1000
      (fun i => 0x100000 + 4096 * i))[3 + 4 * (VBI_DMA_PAGES - 1) + 2]? = some RISC_JUMP ∧
    (cx88sdr_make_risc_instructions 0x1000
      (fun i => 0x100000 + 4096 * i))[3 + 4 * (VBI_DMA_PAGES - 1) + 3]? =
      some (0x1000 + 4 * 1) ∧
    (cx88sdr_make_risc_instructions 0x1000 (fun i => 0x100000 + 4096 * i)).length
      = 3 + 4 * (VBI_DMA_PAGES - 1) + 4 ∧
    (cx88sdr_make_risc_instructions 0x1000 (fun i => 0x100000 + 4096 * i))[1]?
      = some risc_write_lo :=
  ⟨by decide, risc_loop_closure 0x1000 (fun i => 0x100000 + 4096 * i) (by decide)⟩

/-! ## SRAM setup: the cluster descriptor table -/

theorem ctrl_iowrite32_mmio (dev : Dev) (reg val : Nat) :
    (ctrl_iowrite32 dev reg val).mmio = dev.mmio ++ [(reg, val)] := rfl

/-- The writes of the loop "Write CDT": pass `t` stores `buff + t * buffsize` at
`cdt + 16 * (i + t)`, both on 32 bits. -/
theorem cdt_loop_mmio (buffsize cdt : Nat) (n i buff : Nat) (dev : Dev) (hb : buff < U32) :
    (cdt_loop buffsize cdt n i buff dev).mmio =
      dev.mmio ++ (List.range n).map
        (fun t => ((cdt + 16 * (i + t)) % U32, (buff + t * buffsize) % U32)) := by
  induction n generalizing i buff dev with
  | zero =>
    rw [cdt_loop, List.range_zero, List.map_nil, List.append_nil]
  | succ n ih =>
    rw [cdt_loop, ih (i + 1) ((buff + buffsize) % U32) _ (Nat.mod_lt _ (by decide)),
      ctrl_iowrite32_mmio, List.range_succ_eq_map, List.map_cons, List.map_map,
      List.append_assoc, List.singleton_append]
    congr 2
    · rw [Nat.zero_mul, Nat.add_zero, Nat.add_zero, Nat.mod_eq_of_lt hb]
    · apply List.map_congr_left
      intro t _
      have e1 : i + 1 + t = i + Nat.succ t := by omega
      have e2 : buff + buffsize + t * buffsize = buff + Nat.succ t * buffsize := by
        rw [Nat.succ_mul]; omega
      rw [Function.comp_apply, Nat.mod_add_mod, e1, e2]

theorem cdt_entry_arith (base t : Nat) (hbase : base + 8 * 2048 ≤ 4294967296) (ht : t < 8) :
    (1576960 + 16 * (0 + t)) % 4294967296 = 1576960 + 16 * t ∧
    (base + t * 2048) % 4294967296 = base + t * 2048 := by
  omega

/-- C11 (as the code has it): the call of `cx88sdr_sram_setup` made by probe
writes a descriptor table of `CLUSTER_BUF_NUM = 8` entries, 16 bytes apart from
`CDT_BASE`; entry `i` holds `buff + i * CLUSTER_BUF_SIZE`, where `buff` is the
cluster buffer base passed by probe, and the remaining eight writes set up the
channel.  No entry depends on the page addresses of the pool. -/
theorem cdt_written_by_probe (phy base : Nat) (dev : Dev)
    (hbase : base + CLUSTER_BUF_NUM * CLUSTER_BUF_SIZE ≤ U32) :
    (cx88sdr_probe_sram phy base dev).mmio =
      dev.mmio ++
      (List.range CLUSTER_BUF_NUM).map
        (fun i => (CDT_BASE + 16 * i, base + i * CLUSTER_BUF_SIZE)) ++
      [(CHN24_CMDS_BASE + 0, phy % U32), (CHN24_CMDS_BASE + 4, CDT_BASE),
       (CHN24_CMDS_BASE + 8, CLUSTER_BUF_NUM * 2 % U32),
       (CHN24_CMDS_BASE + 12, RISC_INST_QUEUE), (CHN24_CMDS_BASE + 16, 0x40),
       (MO_DMA24_PTR2, CDT_BASE), (MO_DMA24_CNT1, u32_dec (CLUSTER_BUF_SIZE >>> 3)),
       (MO_DMA24_CNT2, CLUSTER_BUF_NUM * 2 % U32)] ∧
    ((List.range CLUSTER_BUF_NUM).map
        (fun i => (CDT_BASE + 16 * i, base + i * CLUSTER_BUF_SIZE))).length = 8 := by
  have hU : U32 = 4294967296 := by decide
  have hC : CDT_BASE = 1576960 := by decide
  have hS : CLUSTER_BUF_SIZE = 2048 := CLUSTER_BUF_SIZE_eq
  have hn : CLUSTER_BUF_NUM = 8 := by decide
  have hb : base < U32 := by rw [hn, hS] at hbase; omega
  have hmap : (List.range CLUSTER_BUF_NUM).map
      (fun t => ((CDT_BASE + 16 * (0 + t)) % U32, (base + t * CLUSTER_BUF_SIZE) % U32)) =
      (List.range CLUSTER_BUF_NUM).map
        (fun i => (CDT_BASE + 16 * i, base + i * CLUSTER_BUF_SIZE)) := by
    apply List.map_congr_left
    intro t ht
    rw [List.mem_range, hn] at ht
    rw [hn, hS, hU] at hbase
    rw [hC, hS, hU]
    obtain ⟨a1, a2⟩ := cdt_entry_arith base t hbase ht
    rw [a1, a2]
  constructor
  · unfold cx88sdr_probe_sram cx88sdr_sram_setup
    simp only [ctrl_iowrite32_mmio, cdt_loop_mmio CLUSTER_BUF_SIZE CDT_BASE CLUSTER_BUF_NUM 0
      base dev hb, hmap, List.append_assoc, List.singleton_append, List.cons_append,
      List.nil_append]
  · rw [List.length_map, List.length_range, hn]

theorem cdt_written_by_probe_witness :
    CLUSTER_BUF_BASE + CLUSTER_BUF_NUM * CLUSTER_BUF_SIZE ≤ U32 ∧
    (cx88sdr_probe_sram 0x1000 CLUSTER_BUF_BASE dev_band0_open).mmio =
      dev_band0_open.mmio ++
      (List.range CLUSTER_BUF_NUM).map
        (fun i => (CDT_BASE + 16 * i, CLUSTER_BUF_BASE + i * CLUSTER_BUF_SIZE)) ++
      [(CHN24_CMDS_BASE + 0, 0x1000 % U32), (CHN24_CMDS_BASE + 4, CDT_BASE),
       (CHN24_CMDS_BASE + 8, CLUSTER_BUF_NUM * 2 % U32),
       (CHN24_CMDS_BASE + 12, RISC_INST_QUEUE), (CHN24_CMDS_BASE + 16, 0x40),
       (MO_DMA24_PTR2, CDT_BASE), (MO_DMA24_CNT1, u32_dec (CLUSTER_BUF_SIZE >>> 3)),
       (MO_DMA24_CNT2, CLUSTER_BUF_NUM * 2 % U32)] ∧
    ((List.range CLUSTER_BUF_NUM).map
        (fun i => (CDT_BASE + 16 * i, CLUSTER_BUF_BASE + i * CLUSTER_BUF_SIZE))).length = 8 :=
  ⟨by decide, cdt_written_by_probe 0x1000 CLUSTER_BUF_BASE dev_band0_open (by decide)⟩

/-- C11 (counterexample): on a device with an empty write log the call made by
probe performs 16 register writes in all, 8 of them to the descriptor table, the
last at `CDT_BASE + 16 * 7`; `N * cluster_per_page` is 32768, and entry 8 is
never written. -/
theorem cdt_has_eight_entries :
    (cx88sdr_probe_sram 0x1000 CLUSTER_BUF_BASE dev_band0_open).mmio.length = 16 ∧
    VBI_DMA_PAGES * (PAGE_SIZE / CLUSTER_BUF_SIZE) = 32768 ∧
    ((cx88sdr_probe_sram 0x1000 CLUSTER_BUF_BASE dev_band0_open).mmio.map Prod.fst).take 8 =
      (List.range 8).map (fun i => CDT_BASE + 16 * i) ∧
    (CDT_BASE + 16 * 8) ∉
      (cx88sdr_probe_sram 0x1000 CLUSTER_BUF_BASE dev_band0_open).mmio.map Prod.fst := by
  decide

end CX88SDR
